import Mathlib

/-!
Verification of the declarative finite state machine engine in `fsm.py`.

The engine is embedded shallowly:

* Python strings used as state names become `Sym := String`.
* Python runtime values that flow through the decorator checks and guard
  returns become the inductive `PyVal` (string / bool / None / other), with
  Python truthiness and `isinstance` tests made explicit.
* Python exceptions become the inductive `PyErr`; the source raises
  `FiniteStateMachineError` with a distinct message at every engine failure
  site (`fsmError` below), and plain `TypeError` / `AttributeError` where the
  interpreter would (`typeError`, `attributeError`).
* Python dicts (the state map and the two-level transition lookup table) are
  insertion-ordered association lists; `dget` is `dict.get`, `dinsert` is
  `dict.update` with a single key (replace in place, else append).
* Action and guard callables are opaque: an action is identified by its name
  and its execution is recorded as an event in a trace; a guard carries a
  function from the transition-scoped context argument to the `PyVal` it
  returns.  A `transition` call returns the Python return value, the machine
  after the call (its single mutable field is the current state), and the
  trace of guard/action invocations it performed, in order.
-/

namespace Fsm

abbrev Sym := String

/-- A Python runtime value, as far as the engine inspects values: the engine
only ever asks for truthiness, `isinstance(-, str)`, `isinstance(-, bool)`
and `len(-) == 0` (the last only on strings). `otherTruthy` / `otherFalsy`
stand for any value of another type with the given truthiness. -/
inductive PyVal where
  | str (s : String)
  | bool (b : Bool)
  | pyNone
  | otherTruthy
  | otherFalsy
deriving DecidableEq

/-- Python truthiness of a `PyVal`. -/
def pyTruthy : PyVal → Bool
  | PyVal.str s => !(s.isEmpty)
  | PyVal.bool b => b
  | PyVal.pyNone => false
  | PyVal.otherTruthy => true
  | PyVal.otherFalsy => false

/-- `isinstance(v, str)`. -/
def pyIsStr : PyVal → Bool
  | PyVal.str _ => true
  | _ => false

/-- `isinstance(v, bool)`. -/
def pyIsBool : PyVal → Bool
  | PyVal.bool _ => true
  | _ => false

/-- `len(v) == 0` for the values on which the engine evaluates it; only ever
reached on strings (the preceding disjuncts of the condition in the source
short-circuit every other case). -/
def pyLenZero : PyVal → Bool
  | PyVal.str s => s.isEmpty
  | _ => false

/-- A Python exception as raised by the engine: `fsmError` is
`FiniteStateMachineError` carrying its message, the other two are the
interpreter's own `TypeError` and `AttributeError`. -/
inductive PyErr where
  | fsmError (msg : String)
  | typeError (msg : String)
  | attributeError (attr : String)
deriving DecidableEq

/-- `True` exactly when a computation failed with `FiniteStateMachineError`,
the error class the specification calls `ConfigurationError` (and, at run
time, `InvalidStateError` / `InvalidTransitionError` / `GuardContractError` /
`GuardRejectedError`). -/
def isConfigError {α : Type} : Except PyErr α → Bool
  | Except.error (PyErr.fsmError _) => true
  | _ => false

/- ------------------------------------------------------------------
Error messages, mirroring the format strings in `fsm.py` (the multi-line
messages are abbreviated to their first line; what matters for the claims is
which distinct raise site produced the error and which names it mentions). -/

def actionStateMsg : String :=
  "Please specify a valid action state attribute. Possible values are strings."

def guardStateMsg : String :=
  "Please specify a valid guard state attribute. Possible values are strings."

def onEntryTypeMsg : String :=
  "Please specify a valid action on_entry attribute. Possible values are True or False."

def onExitTypeMsg : String :=
  "Please specify a valid action on_exit attribute. Possible values are True or False."

def specifyTransitionsMsg : String :=
  "Please specify a list of possible transitions."

def undeclActionStateMsg (state name : Sym) : String :=
  "A state named " ++ state ++ " is not declared in the transitions list. " ++
    "Please add " ++ state ++ " to the list of possible transitions " ++
    "or modify the @Action decorator on " ++ name ++ "."

def undeclGuardStateMsg (state name : Sym) : String :=
  "A state named " ++ state ++ " is not declared in the transitions list. " ++
    "Please add " ++ state ++ " to the list of possible transitions " ++
    "or modify the @Guard decorator on " ++ name ++ "."

def dupEntryMsg (state : Sym) : String :=
  "The " ++ state ++ " state can only have one action declared for on_entry."

def dupExitMsg (state : Sym) : String :=
  "The " ++ state ++ " state can only have one action declared for on_exit."

def dupGuardMsg (state : Sym) : String :=
  "The " ++ state ++ " state can only have one guard declared"

def invalidStateMsg (s : Sym) : String :=
  "The " ++ s ++ " state is invalid, or we have entered a terminal state."

def invalidTransitionMsg (b e : Sym) : String :=
  "The transition from " ++ b ++ " to " ++ e ++ " is invalid."

def guardContractMsg : String :=
  "A guard must only return True or False values."

def guardRejectedMsg (b e : Sym) : String :=
  "A guard declined the transition from " ++ b ++ " to " ++ e ++ "."

/-- The `TypeError` the interpreter raises when the engine evaluates
`'key' in None` on a state record that is missing (`argument of type
'NoneType' is not iterable`); unreachable on tables the builder produces. -/
def noneNotIterableMsg : String :=
  "argument of type NoneType is not iterable"

/- ------------------------------------------------------------------
Python dicts as insertion-ordered association lists. -/

/-- `d.get(k)`: the value at the first (unique) occurrence of key `k`. -/
def dget {β : Type} : List (Sym × β) → Sym → Option β
  | [], _ => none
  | (k, v) :: t, k' => if k = k' then some v else dget t k'

/-- `d.update({k: v})` (also in-place mutation of the value at `k`): replace
the value at `k` keeping its position, else append the new binding. -/
def dinsert {β : Type} : List (Sym × β) → Sym → β → List (Sym × β)
  | [], k, v => [(k, v)]
  | (k', v') :: t, k, v =>
      if k' = k then (k, v) :: t else (k', v') :: dinsert t k v

/- ------------------------------------------------------------------
Declaration layer: the `Action` and `Guard` decorators (`Action.__call__`,
`Guard.__call__` in `fsm.py`).  A decorator receives its keyword arguments
(a missing key and an explicit `None` are indistinguishable to
`kwargs.get`, so `state` is the `PyVal` that `kwargs.get('state')` returns,
with `none` for a key that is absent; `on_entry` / `on_exit` use `none` for
an absent key because the source tests `'on_entry' in self.kwargs`) and the
callable being decorated, and returns the callable together with the
metadata it attached, or the exception it raised. -/

structure ActionKwargs where
  state : Option PyVal
  on_entry : Option PyVal
  on_exit : Option PyVal

structure GuardKwargs where
  state : Option PyVal

/-- `self.kwargs.get('state')`. -/
def kwState (o : Option PyVal) : PyVal := o.getD PyVal.pyNone

/-- The condition under which both decorators reject the `state` keyword:
`not state or not isinstance(state, str) or len(state) == 0`. -/
def invalidStateAttr (v : PyVal) : Bool :=
  (!pyTruthy v) || (!pyIsStr v) || pyLenZero v

/-- The callable returned by a successful `@Action(...)` application: the
original callable plus the `__fsm_action_state__`, `__fsm_action_on_entry__`
and `__fsm_action_on_exit__` attributes set on it. -/
structure DecoratedAction (α : Type) where
  fn : α
  fsm_action_state : PyVal
  fsm_action_on_entry : Bool
  fsm_action_on_exit : Bool

/-- The callable returned by a successful `@Guard(...)` application. -/
structure DecoratedGuard (α : Type) where
  fn : α
  fsm_guard_state : PyVal

/-- The `on_entry` / `on_exit` keyword handling of `Action.__call__`: if the
key is present its value must be strictly boolean (else `TypeError`),
otherwise the default applies. -/
def parseOnFlag (o : Option PyVal) (dflt : Bool) (msg : String) :
    Except PyErr Bool :=
  match o with
  | none => Except.ok dflt
  | some (PyVal.bool b) => Except.ok b
  | some _ => Except.error (PyErr.typeError msg)

/-- `Action.__call__(function)`: validate `state` (raising
`FiniteStateMachineError` on failure), then `on_entry` (default `True`) and
`on_exit` (default `False`), and return the callable with its metadata.  The
callable `f` is only carried through, never applied. -/
def actionDecorate {α : Type} (kw : ActionKwargs) (f : α) :
    Except PyErr (DecoratedAction α) :=
  let stv := kwState kw.state
  if invalidStateAttr stv then Except.error (PyErr.fsmError actionStateMsg)
  else
    match parseOnFlag kw.on_entry true onEntryTypeMsg with
    | Except.error e => Except.error e
    | Except.ok oe =>
        match parseOnFlag kw.on_exit false onExitTypeMsg with
        | Except.error e => Except.error e
        | Except.ok ox => Except.ok ⟨f, stv, oe, ox⟩

/-- `Guard.__call__(function)`: validate `state` — raising a plain
`TypeError`, not `FiniteStateMachineError`, on failure — and return the
callable with its metadata.  The callable `f` is never applied. -/
def guardDecorate {α : Type} (kw : GuardKwargs) (f : α) :
    Except PyErr (DecoratedGuard α) :=
  let stv := kwState kw.state
  if invalidStateAttr stv then Except.error (PyErr.typeError guardStateMsg)
  else Except.ok ⟨f, stv⟩

/- ------------------------------------------------------------------
The machine declaration as consumed by `FiniteStateMachine.__init__`. -/

/-- The metadata of one action-decorated method found by
`__get_actions__` (reflection over `dir(self)`): its name and the
`__fsm_action_*__` attributes a successful `@Action(...)` left on it. -/
structure ActionMeta where
  name : Sym
  state : Sym
  on_entry : Bool
  on_exit : Bool
deriving DecidableEq

/-- The metadata of one guard-decorated method found by `__get_guards__`,
together with its behaviour: `fn ctx` is the Python value the guard returns
when called with the transition-scoped context argument. -/
structure GuardMeta (Ctx : Type) where
  name : Sym
  state : Sym
  fn : Ctx → PyVal

/-- What a concrete subclass of `FiniteStateMachine` supplies to
construction: the `transitions` class attribute (`none`: the attribute is
not defined at all, so reading it raises `AttributeError`; `some none`: it
is defined as `None`; `some (some ts)`: a list of two-tuples), the
`initial_state` attribute, and the decorated methods the reflection pass
collects, in `dir(self)` order. -/
structure MachineDecl (Ctx : Type) where
  transitions : Option (Option (List (Sym × Sym)))
  initial_state : Option Sym
  actions : List ActionMeta
  guards : List (GuardMeta Ctx)

/-- The per-state attribute record of the state map: at most one on-entry
action, one on-exit action (each stored by name) and one guard. -/
structure StateRec (Ctx : Type) where
  on_entry : Option Sym
  on_exit : Option Sym
  guard : Option (GuardMeta Ctx)

abbrev StateMap (Ctx : Type) := List (Sym × StateRec Ctx)

/-- One resolved entry of the transition lookup table, holding the
`beginning_state` and `end_state` records the builder stored — the source
stores `state_map.get(...)`, whose value is an `Option`.  Every record the
builder actually stores has both keys set, which is why this is a structure
rather than a partial dict. -/
structure TransRec (Ctx : Type) where
  beginning_state : Option (StateRec Ctx)
  end_state : Option (StateRec Ctx)

abbrev LookupTable (Ctx : Type) := List (Sym × List (Sym × TransRec Ctx))

/-- A constructed machine: the immutable lookup table and the single
mutable field `__state__`. -/
structure Machine (Ctx : Type) where
  table : LookupTable Ctx
  curState : Sym

/-- `state()`. -/
def state {Ctx : Type} (m : Machine Ctx) : Sym := m.curState

/- ------------------------------------------------------------------
`__get_states__`: derive the state set from the transition pairs. -/

/-- One `if x not in states: states.append(x)` step. -/
def addState (states : List Sym) (s : Sym) : List Sym :=
  if s ∈ states then states else states ++ [s]

def deriveAux : List Sym → List (Sym × Sym) → List Sym
  | acc, [] => acc
  | acc, (b, e) :: rest => deriveAux (addState (addState acc b) e) rest

/-- The state list `__get_states__` builds from a (nonempty) transition
list: every first and second component, in order of first appearance. -/
def deriveStates (ts : List (Sym × Sym)) : List Sym := deriveAux [] ts

/-- `__get_states__` including its failure behaviour: reading a missing
`transitions` attribute raises `AttributeError`; `if not self.transitions`
rejects `None` and the empty list with `FiniteStateMachineError`. -/
def getStates {Ctx : Type} (md : MachineDecl Ctx) : Except PyErr (List Sym) :=
  match md.transitions with
  | none => Except.error (PyErr.attributeError "transitions")
  | some none => Except.error (PyErr.fsmError specifyTransitionsMsg)
  | some (some ts) =>
      if ts.isEmpty then Except.error (PyErr.fsmError specifyTransitionsMsg)
      else Except.ok (deriveStates ts)

/- ------------------------------------------------------------------
`__create_state_map__`. -/

def initAux {Ctx : Type} : StateMap Ctx → List Sym → StateMap Ctx
  | sm, [] => sm
  | sm, s :: rest => initAux (dinsert sm s ⟨none, none, none⟩) rest

/-- "Make sure every state has an entry": an empty record per derived
state. -/
def initMap {Ctx : Type} (states : List Sym) : StateMap Ctx :=
  initAux [] states

/-- The `on_entry` clause for one action: bind it as the state's entry
action if none is bound yet and the action fires on entry; raise if one is
already bound and this action also fires on entry. -/
def procEntry {Ctx : Type} (r : StateRec Ctx) (a : ActionMeta) :
    Except PyErr (StateRec Ctx) :=
  match r.on_entry with
  | none => if a.on_entry then Except.ok ⟨some a.name, r.on_exit, r.guard⟩
            else Except.ok r
  | some _ => if a.on_entry then Except.error (PyErr.fsmError (dupEntryMsg a.state))
              else Except.ok r

/-- The `on_exit` clause, symmetric to `procEntry`. -/
def procExit {Ctx : Type} (r : StateRec Ctx) (a : ActionMeta) :
    Except PyErr (StateRec Ctx) :=
  match r.on_exit with
  | none => if a.on_exit then Except.ok ⟨r.on_entry, some a.name, r.guard⟩
            else Except.ok r
  | some _ => if a.on_exit then Except.error (PyErr.fsmError (dupExitMsg a.state))
              else Except.ok r

/-- "Attach actions to their states", one action: reject a state that is not
in the derived set, then run the entry and exit clauses on its record. -/
def procAction {Ctx : Type} (states : List Sym) (sm : StateMap Ctx)
    (a : ActionMeta) : Except PyErr (StateMap Ctx) :=
  if a.state ∈ states then
    match dget sm a.state with
    | none => Except.error (PyErr.typeError noneNotIterableMsg)
    | some r =>
        match procEntry r a with
        | Except.error e => Except.error e
        | Except.ok r1 =>
            match procExit r1 a with
            | Except.error e => Except.error e
            | Except.ok r2 => Except.ok (dinsert sm a.state r2)
  else Except.error (PyErr.fsmError (undeclActionStateMsg a.state a.name))

def procActions {Ctx : Type} (states : List Sym) :
    StateMap Ctx → List ActionMeta → Except PyErr (StateMap Ctx)
  | sm, [] => Except.ok sm
  | sm, a :: rest =>
      match procAction states sm a with
      | Except.error e => Except.error e
      | Except.ok sm' => procActions states sm' rest

/-- "Attach guards to their states", one guard: reject a state that is not
in the derived set, bind the guard if none is bound yet, raise otherwise. -/
def procGuard {Ctx : Type} (states : List Sym) (sm : StateMap Ctx)
    (g : GuardMeta Ctx) : Except PyErr (StateMap Ctx) :=
  if g.state ∈ states then
    match dget sm g.state with
    | none => Except.error (PyErr.typeError noneNotIterableMsg)
    | some r =>
        match r.guard with
        | none => Except.ok (dinsert sm g.state ⟨r.on_entry, r.on_exit, some g⟩)
        | some _ => Except.error (PyErr.fsmError (dupGuardMsg g.state))
  else Except.error (PyErr.fsmError (undeclGuardStateMsg g.state g.name))

def procGuards {Ctx : Type} (states : List Sym) :
    StateMap Ctx → List (GuardMeta Ctx) → Except PyErr (StateMap Ctx)
  | sm, [] => Except.ok sm
  | sm, g :: rest =>
      match procGuard states sm g with
      | Except.error e => Except.error e
      | Except.ok sm' => procGuards states sm' rest

/-- `__create_state_map__(actions, guards, states)`. -/
def createStateMap {Ctx : Type} (actions : List ActionMeta)
    (guards : List (GuardMeta Ctx)) (states : List Sym) :
    Except PyErr (StateMap Ctx) :=
  match procActions states (initMap states) actions with
  | Except.error e => Except.error e
  | Except.ok sm => procGuards states sm guards

/- ------------------------------------------------------------------
The lookup-table loop of `__create_lookup_table__`. -/

/-- One iteration of `for begin, end in self.transitions`: find or create
the inner dict for `begin`, find or create the record for `end`, populate
`beginning_state` / `end_state` on creation (idempotent on a duplicate
declaration). -/
def addEdge {Ctx : Type} (sm : StateMap Ctx) (lt : LookupTable Ctx)
    (b e : Sym) : LookupTable Ctx :=
  dinsert lt b
    (dinsert ((dget lt b).getD []) e
      ((dget ((dget lt b).getD []) e).getD
        (TransRec.mk (dget sm b) (dget sm e))))

def buildAux {Ctx : Type} (sm : StateMap Ctx) :
    LookupTable Ctx → List (Sym × Sym) → LookupTable Ctx
  | lt, [] => lt
  | lt, (b, e) :: rest => buildAux sm (addEdge sm lt b e) rest

/-- The lookup table built from the state map and the transition list. -/
def buildTable {Ctx : Type} (sm : StateMap Ctx) (ts : List (Sym × Sym)) :
    LookupTable Ctx :=
  buildAux sm [] ts

/-- `__create_lookup_table__`: actions, guards and states are collected (the
two reflection passes cannot fail), the state map is built, then the
transition list is enumerated into the table.  The second read of
`self.transitions` cannot fail once `__get_states__` has succeeded. -/
def createLookupTable {Ctx : Type} (md : MachineDecl Ctx) :
    Except PyErr (LookupTable Ctx) :=
  match getStates md with
  | Except.error e => Except.error e
  | Except.ok states =>
      match createStateMap md.actions md.guards states with
      | Except.error e => Except.error e
      | Except.ok sm =>
          match md.transitions with
          | some (some ts) => Except.ok (buildTable sm ts)
          | _ => Except.error (PyErr.attributeError "transitions")

/-- `FiniteStateMachine.__init__`: build the lookup table, then read
`initial_state` (never validated against the derived states) into
`__state__`. -/
def construct {Ctx : Type} (md : MachineDecl Ctx) :
    Except PyErr (Machine Ctx) :=
  match createLookupTable md with
  | Except.error e => Except.error e
  | Except.ok table =>
      match md.initial_state with
      | none => Except.error (PyErr.attributeError "initial_state")
      | some s => Except.ok ⟨table, s⟩

/-- Replace only the `initial_state` attribute of a declaration. -/
def withInit {Ctx : Type} (md : MachineDecl Ctx) (v : Sym) : MachineDecl Ctx :=
  ⟨md.transitions, some v, md.actions, md.guards⟩

/- ------------------------------------------------------------------
The transition executor. -/

/-- One observable side effect of a `transition` call: a guard invoked with
the context argument, or an action invoked with the triggering event and
the context argument. -/
inductive TraceEv (Ev Ctx : Type) where
  | guardCall (name : Sym) (ctx : Ctx)
  | actCall (name : Sym) (ev : Ev) (ctx : Ctx)

/-- The trace of the guard consultation on the destination record. -/
def guardTrace (Ev : Type) {Ctx : Type} (er : StateRec Ctx) (ctx : Ctx) :
    List (TraceEv Ev Ctx) :=
  match er.guard with
  | some g => [TraceEv.guardCall g.name ctx]
  | none => []

/-- The trace of the origin's exit action, if one is bound. -/
def exitTrace {Ev Ctx : Type} (br : StateRec Ctx) (ev : Ev) (ctx : Ctx) :
    List (TraceEv Ev Ctx) :=
  match br.on_exit with
  | some nm => [TraceEv.actCall nm ev ctx]
  | none => []

/-- The trace of the destination's entry action, if one is bound. -/
def entryTrace {Ev Ctx : Type} (er : StateRec Ctx) (ev : Ev) (ctx : Ctx) :
    List (TraceEv Ev Ctx) :=
  match er.on_entry with
  | some nm => [TraceEv.actCall nm ev ctx]
  | none => []

/-- Lines 239-246 of `fsm.py`: run the origin's exit action and the
destination's entry action (each a trace event), then commit
`self.__state__ = to`; the method body ends without a `return`, so the
Python return value is `None` (`Except.ok none`). -/
def runExitEntry {Ev Ctx : Type} (m : Machine Ctx) (tgt : Sym) (ev : Ev)
    (ctx : Ctx) (tr : TransRec Ctx) (acc : List (TraceEv Ev Ctx)) :
    Except PyErr (Option Sym) × Machine Ctx × List (TraceEv Ev Ctx) :=
  match tr.beginning_state with
  | none => (Except.error (PyErr.typeError noneNotIterableMsg), m, acc)
  | some br =>
      let acc1 := acc ++ exitTrace br ev ctx
      match tr.end_state with
      | none => (Except.error (PyErr.typeError noneNotIterableMsg), m, acc1)
      | some er =>
          (Except.ok none, ⟨m.table, tgt⟩, acc1 ++ entryTrace er ev ctx)

/-- `FiniteStateMachine.transition(to, triggered_event_description,
transition_tailored_arguments)`: look up the current state (invalid/terminal
states fail), look up the destination (undeclared edges fail), consult the
destination's guard if any (non-boolean returns and `False` returns fail
with no further side effects), then run exit action, entry action, and
commit.  The result is (Python return value or exception, the machine after
the call, the trace of invocations performed). -/
def transition {Ev Ctx : Type} (m : Machine Ctx) (tgt : Sym) (ev : Ev)
    (ctx : Ctx) :
    Except PyErr (Option Sym) × Machine Ctx × List (TraceEv Ev Ctx) :=
  match dget m.table m.curState with
  | none => (Except.error (PyErr.fsmError (invalidStateMsg m.curState)), m, [])
  | some trs =>
      if trs.isEmpty then
        (Except.error (PyErr.fsmError (invalidStateMsg m.curState)), m, [])
      else
        match dget trs tgt with
        | none =>
            (Except.error (PyErr.fsmError (invalidTransitionMsg m.curState tgt)),
             m, [])
        | some tr =>
            match tr.end_state with
            | none => (Except.error (PyErr.typeError noneNotIterableMsg), m, [])
            | some er =>
                match er.guard with
                | none => runExitEntry m tgt ev ctx tr []
                | some g =>
                    let allowed := g.fn ctx
                    let acc := [TraceEv.guardCall g.name ctx]
                    if !(pyIsBool allowed) then
                      (Except.error (PyErr.fsmError guardContractMsg), m, acc)
                    else if !(pyTruthy allowed) then
                      (Except.error
                         (PyErr.fsmError (guardRejectedMsg m.curState tgt)),
                       m, acc)
                    else runExitEntry m tgt ev ctx tr acc

/- ------------------------------------------------------------------
Concrete declarations used by the witnesses and counterexamples. -/

/-- A minimal guard-free machine: one transition, `off → on`. -/
def simpleTs : List (Sym × Sym) := [("off", "on")]

def simpleDecl : MachineDecl Unit :=
  ⟨some (some simpleTs), some "off", [], []⟩

def rec0 : StateRec Unit := ⟨none, none, none⟩

def simpleTable : LookupTable Unit :=
  [("off", [("on", ⟨some rec0, some rec0⟩)])]

def simpleM : Machine Unit := ⟨simpleTable, "off"⟩

/-- The light-bulb machine of the repository's tests, with the guard made
context-driven: the guard on `on` returns the context value itself, so one
machine exhibits acceptance (`ctx = PyVal.bool true`), rejection
(`ctx = PyVal.bool false`) and a broken guard contract (any non-boolean
`ctx`). -/
def lbTs : List (Sym × Sym) :=
  [("off", "on"), ("on", "off"), ("off", "broken"), ("on", "broken")]

def lbActions : List ActionMeta :=
  [⟨"smash", "broken", true, false⟩,
   ⟨"turn_off", "off", true, false⟩,
   ⟨"turn_on", "on", true, false⟩]

def lbGuard : GuardMeta PyVal := ⟨"check_electricity", "on", fun v => v⟩

def lbDecl : MachineDecl PyVal :=
  ⟨some (some lbTs), some "off", lbActions, [lbGuard]⟩

/-- The state map construction on `lbDecl` produces. -/
def lbSm : StateMap PyVal :=
  [("off", ⟨some "turn_off", none, none⟩),
   ("on", ⟨some "turn_on", none, some lbGuard⟩),
   ("broken", ⟨some "smash", none, none⟩)]

/-- The machine `construct lbDecl` produces. -/
def lbM : Machine PyVal := ⟨buildTable lbSm lbTs, "off"⟩

/-- A declaration with two on-entry actions bound to the state `on`. -/
def dupDecl : MachineDecl Unit :=
  ⟨some (some simpleTs), some "off",
   [⟨"a1", "on", true, false⟩, ⟨"a2", "on", true, false⟩], []⟩

/-- A declaration whose only action names a state absent from the
transitions. -/
def badActDecl : MachineDecl Unit :=
  ⟨some (some simpleTs), some "off", [⟨"foobar", "bogus", true, true⟩], []⟩

/-- `transitions` defined as `None`. -/
def mdNoneTrans : MachineDecl Unit := ⟨some none, some "a", [], []⟩

/-- The `transitions` attribute not defined at all. -/
def mdAbsentTrans : MachineDecl Unit := ⟨none, some "a", [], []⟩

/- ------------------------------------------------------------------
Predicates used to state invariants of the builder. -/

/-- Every state of `states` has a record in the state map (the invariant
`__create_state_map__` establishes before attaching actions). -/
def covered {Ctx : Type} (states : List Sym) (sm : StateMap Ctx) : Prop :=
  ∀ s ∈ states, (dget sm s).isSome

/-- The state map binds an on-entry action at `s`. -/
def entryBound {Ctx : Type} (sm : StateMap Ctx) (s : Sym) : Prop :=
  ∃ r, dget sm s = some r ∧ (StateRec.on_entry r).isSome

/-- The state map binds an on-exit action at `s`. -/
def exitBound {Ctx : Type} (sm : StateMap Ctx) (s : Sym) : Prop :=
  ∃ r, dget sm s = some r ∧ (StateRec.on_exit r).isSome

/-- The state map binds a guard at `s`. -/
def guardBound {Ctx : Type} (sm : StateMap Ctx) (s : Sym) : Prop :=
  ∃ r, dget sm s = some r ∧ (StateRec.guard r).isSome

/-- Every record stored in the lookup table is the resolved pair of
state-map records for its keys. -/
def canonTable {Ctx : Type} (sm : StateMap Ctx) (lt : LookupTable Ctx) : Prop :=
  ∀ b trs e t, dget lt b = some trs → dget trs e = some t →
    t = TransRec.mk (dget sm b) (dget sm e)

/-- The table has an entry for the edge `(b, e)`. -/
def tableHasEdge {Ctx : Type} (lt : LookupTable Ctx) (b e : Sym) : Prop :=
  ∃ trs, dget lt b = some trs ∧ (dget trs e).isSome

/-- No inner dict of the table is empty. -/
def tableNE {Ctx : Type} (lt : LookupTable Ctx) : Prop :=
  ∀ b trs, dget lt b = some trs → trs ≠ []

/- ==================================================================
Lemmas about the dict model. -/

theorem dget_dinsert_self {β : Type} (d : List (Sym × β)) (k : Sym) (v : β) :
    dget (dinsert d k v) k = some v := by
  induction d with
  | nil => simp [dinsert, dget]
  | cons hd t ih =>
      obtain ⟨k0, v0⟩ := hd
      by_cases hk : k0 = k
      · simp [dinsert, hk, dget]
      · simp [dinsert, hk, dget, ih]

theorem dget_dinsert_ne {β : Type} (d : List (Sym × β)) (k k' : Sym) (v : β)
    (h : k ≠ k') : dget (dinsert d k v) k' = dget d k' := by
  induction d with
  | nil => simp [dinsert, dget, h]
  | cons hd t ih =>
      obtain ⟨k0, v0⟩ := hd
      by_cases hk : k0 = k
      · subst hk; simp [dinsert, dget, h]
      · simp only [dinsert, if_neg hk]
        by_cases hk' : k0 = k'
        · simp [dget, hk']
        · simp [dget, hk', ih]

theorem dinsert_ne_nil {β : Type} (d : List (Sym × β)) (k : Sym) (v : β) :
    dinsert d k v ≠ [] := by
  cases d with
  | nil => simp [dinsert]
  | cons hd t =>
      obtain ⟨k0, v0⟩ := hd
      by_cases hk : k0 = k <;> simp [dinsert, hk]

theorem dget_dinsert_isSome {β : Type} (d : List (Sym × β)) (k k' : Sym)
    (v : β) (h : (dget d k').isSome) : (dget (dinsert d k v) k').isSome := by
  by_cases hk : k = k'
  · subst hk; simp [dget_dinsert_self]
  · rwa [dget_dinsert_ne _ _ _ _ hk]

theorem dget_dinsert_isSome_inv {β : Type} (d : List (Sym × β)) (k k' : Sym)
    (v : β) (h : (dget (dinsert d k v) k').isSome) :
    k = k' ∨ (dget d k').isSome := by
  by_cases hk : k = k'
  · exact Or.inl hk
  · right; rwa [dget_dinsert_ne _ _ _ _ hk] at h

/- ==================================================================
Lemmas about the derived state set. -/

theorem mem_addState_self (l : List Sym) (s : Sym) : s ∈ addState l s := by
  unfold addState; split <;> simp_all

theorem mem_addState_of_mem (l : List Sym) (s x : Sym) (h : x ∈ l) :
    x ∈ addState l s := by
  unfold addState; split <;> simp_all

theorem deriveAux_mono (ts : List (Sym × Sym)) (acc : List Sym) (x : Sym)
    (h : x ∈ acc) : x ∈ deriveAux acc ts := by
  induction ts generalizing acc with
  | nil => simpa [deriveAux] using h
  | cons p rest ih =>
      obtain ⟨b, e⟩ := p
      exact ih _ (mem_addState_of_mem _ _ _ (mem_addState_of_mem _ _ _ h))

theorem mem_deriveAux (ts : List (Sym × Sym)) (acc : List Sym) (b e : Sym)
    (h : (b, e) ∈ ts) : b ∈ deriveAux acc ts ∧ e ∈ deriveAux acc ts := by
  induction ts generalizing acc with
  | nil => cases h
  | cons p rest ih =>
      obtain ⟨b0, e0⟩ := p
      rcases List.mem_cons.mp h with h1 | h1
      · injection h1 with hb he
        subst hb; subst he
        constructor
        · show b ∈ deriveAux (addState (addState acc b) e) rest
          exact deriveAux_mono _ _ _
            (mem_addState_of_mem _ _ _ (mem_addState_self _ _))
        · show e ∈ deriveAux (addState (addState acc b) e) rest
          exact deriveAux_mono _ _ _ (mem_addState_self _ _)
      · show b ∈ deriveAux (addState (addState acc b0) e0) rest ∧
          e ∈ deriveAux (addState (addState acc b0) e0) rest
        exact ih _ h1

theorem mem_deriveStates (ts : List (Sym × Sym)) (b e : Sym)
    (h : (b, e) ∈ ts) : b ∈ deriveStates ts ∧ e ∈ deriveStates ts :=
  mem_deriveAux ts [] b e h

theorem deriveStates_ne_nil (ts : List (Sym × Sym)) (h : ts ≠ []) :
    deriveStates ts ≠ [] := by
  cases ts with
  | nil => exact absurd rfl h
  | cons p rest =>
      obtain ⟨b, e⟩ := p
      have hb := (mem_deriveStates ((b, e) :: rest) b e (by simp)).1
      exact List.ne_nil_of_mem hb

/- ==================================================================
The initial state map covers the derived states. -/

theorem dget_initAux_isSome {Ctx : Type} (states : List Sym)
    (sm : StateMap Ctx) (s : Sym)
    (h : s ∈ states ∨ (dget sm s).isSome) :
    (dget (initAux sm states) s).isSome := by
  induction states generalizing sm with
  | nil =>
      rcases h with h | h
      · cases h
      · simpa [initAux] using h
  | cons st rest ih =>
      show (dget (initAux (dinsert sm st ⟨none, none, none⟩) rest) s).isSome
      apply ih
      rcases h with h | h
      · rcases List.mem_cons.mp h with h1 | h1
        · subst h1; right; simp [dget_dinsert_self]
        · left; exact h1
      · right; exact dget_dinsert_isSome _ _ _ _ h

theorem covered_initMap {Ctx : Type} (states : List Sym) :
    covered states (initMap states : StateMap Ctx) := by
  intro s hs
  exact dget_initAux_isSome states [] s (Or.inl hs)

/- ==================================================================
Lemmas about attaching one action to the state map. -/

theorem procEntry_ok_fields {Ctx : Type} {r r1 : StateRec Ctx} {a : ActionMeta}
    (h : procEntry r a = Except.ok r1) :
    r1.on_exit = r.on_exit ∧ r1.guard = r.guard ∧
      (r1.on_entry = r.on_entry ∨ r1.on_entry = some a.name) := by
  unfold procEntry at h
  split at h
  · split at h <;> cases h <;> simp
  · split at h
    · cases h
    · cases h; simp

theorem procEntry_ok_true {Ctx : Type} {r r1 : StateRec Ctx} {a : ActionMeta}
    (ha : a.on_entry = true) (h : procEntry r a = Except.ok r1) :
    r1.on_entry = some a.name := by
  unfold procEntry at h
  split at h
  · rw [ha] at h; simp only [if_true] at h; cases h; rfl
  · rw [ha] at h; simp only [if_true] at h; cases h

theorem procEntry_err {Ctx : Type} {r : StateRec Ctx} {a : ActionMeta}
    (hx : (StateRec.on_entry r).isSome) (ha : a.on_entry = true) :
    procEntry r a = Except.error (PyErr.fsmError (dupEntryMsg a.state)) := by
  obtain ⟨x, hxx⟩ := Option.isSome_iff_exists.mp hx
  unfold procEntry
  rw [hxx, ha]
  simp

theorem procEntry_error {Ctx : Type} {r : StateRec Ctx} {a : ActionMeta}
    {e : PyErr} (h : procEntry r a = Except.error e) :
    e = PyErr.fsmError (dupEntryMsg a.state) := by
  unfold procEntry at h
  split at h
  · split at h <;> cases h
  · split at h
    · cases h; rfl
    · cases h

theorem procExit_ok_fields {Ctx : Type} {r r1 : StateRec Ctx} {a : ActionMeta}
    (h : procExit r a = Except.ok r1) :
    r1.on_entry = r.on_entry ∧ r1.guard = r.guard ∧
      (r1.on_exit = r.on_exit ∨ r1.on_exit = some a.name) := by
  unfold procExit at h
  split at h
  · split at h <;> cases h <;> simp
  · split at h
    · cases h
    · cases h; simp

theorem procExit_ok_true {Ctx : Type} {r r1 : StateRec Ctx} {a : ActionMeta}
    (ha : a.on_exit = true) (h : procExit r a = Except.ok r1) :
    r1.on_exit = some a.name := by
  unfold procExit at h
  split at h
  · rw [ha] at h; simp only [if_true] at h; cases h; rfl
  · rw [ha] at h; simp only [if_true] at h; cases h

theorem procExit_err {Ctx : Type} {r : StateRec Ctx} {a : ActionMeta}
    (hx : (StateRec.on_exit r).isSome) (ha : a.on_exit = true) :
    procExit r a = Except.error (PyErr.fsmError (dupExitMsg a.state)) := by
  obtain ⟨x, hxx⟩ := Option.isSome_iff_exists.mp hx
  unfold procExit
  rw [hxx, ha]
  simp

theorem procExit_error {Ctx : Type} {r : StateRec Ctx} {a : ActionMeta}
    {e : PyErr} (h : procExit r a = Except.error e) :
    e = PyErr.fsmError (dupExitMsg a.state) := by
  unfold procExit at h
  split at h
  · split at h <;> cases h
  · split at h
    · cases h; rfl
    · cases h

theorem procAction_ok_parts {Ctx : Type} {states : List Sym}
    {sm sm' : StateMap Ctx} {a : ActionMeta}
    (h : procAction states sm a = Except.ok sm') :
    ∃ r r1 r2, a.state ∈ states ∧ dget sm a.state = some r ∧
      procEntry r a = Except.ok r1 ∧ procExit r1 a = Except.ok r2 ∧
      sm' = dinsert sm a.state r2 := by
  unfold procAction at h
  split at h
  · split at h
    · cases h
    · rename_i r hd
      split at h
      · cases h
      · rename_i r1 he
        split at h
        · cases h
        · rename_i r2 hx
          cases h
          exact ⟨r, r1, r2, by assumption, hd, he, hx, rfl⟩
  · cases h

theorem covered_procAction {Ctx : Type} {states : List Sym}
    {sm sm' : StateMap Ctx} {a : ActionMeta}
    (h : procAction states sm a = Except.ok sm') (hc : covered states sm) :
    covered states sm' := by
  obtain ⟨r, r1, r2, hmem, hd, he, hx, rfl⟩ := procAction_ok_parts h
  intro s hs
  exact dget_dinsert_isSome _ _ _ _ (hc s hs)

theorem procAction_error_fsm {Ctx : Type} {states : List Sym}
    {sm : StateMap Ctx} {a : ActionMeta} {e : PyErr}
    (hc : covered states sm) (h : procAction states sm a = Except.error e) :
    ∃ msg, e = PyErr.fsmError msg := by
  by_cases hmem : a.state ∈ states
  · unfold procAction at h
    rw [if_pos hmem] at h
    split at h
    · rename_i hd
      exact absurd (hc _ hmem) (by simp [hd])
    · rename_i r hd
      split at h
      · rename_i he
        cases h
        exact ⟨_, procEntry_error he⟩
      · rename_i r1 he
        split at h
        · rename_i hx
          cases h
          exact ⟨_, procExit_error hx⟩
        · cases h
  · unfold procAction at h
    rw [if_neg hmem] at h
    cases h
    exact ⟨_, rfl⟩

theorem entryBound_procAction {Ctx : Type} {states : List Sym}
    {sm sm' : StateMap Ctx} {a : ActionMeta} {s : Sym}
    (h : procAction states sm a = Except.ok sm') (hb : entryBound sm s) :
    entryBound sm' s := by
  obtain ⟨r, r1, r2, hmem, hd, he, hx, rfl⟩ := procAction_ok_parts h
  obtain ⟨r0, hr0, hr0e⟩ := hb
  by_cases hk : a.state = s
  · subst hk
    rw [hd] at hr0
    injection hr0 with hr0
    subst hr0
    refine ⟨r2, dget_dinsert_self _ _ _, ?_⟩
    have h2 := (procExit_ok_fields hx).1
    rcases (procEntry_ok_fields he).2.2 with he1 | he1 <;>
      simp [h2, he1, hr0e]
  · exact ⟨r0, by rwa [dget_dinsert_ne _ _ _ _ hk], hr0e⟩

theorem exitBound_procAction {Ctx : Type} {states : List Sym}
    {sm sm' : StateMap Ctx} {a : ActionMeta} {s : Sym}
    (h : procAction states sm a = Except.ok sm') (hb : exitBound sm s) :
    exitBound sm' s := by
  obtain ⟨r, r1, r2, hmem, hd, he, hx, rfl⟩ := procAction_ok_parts h
  obtain ⟨r0, hr0, hr0e⟩ := hb
  by_cases hk : a.state = s
  · subst hk
    rw [hd] at hr0
    injection hr0 with hr0
    subst hr0
    refine ⟨r2, dget_dinsert_self _ _ _, ?_⟩
    have h1 := (procEntry_ok_fields he).1
    rcases (procExit_ok_fields hx).2.2 with he1 | he1 <;>
      simp [he1, h1, hr0e]
  · exact ⟨r0, by rwa [dget_dinsert_ne _ _ _ _ hk], hr0e⟩

theorem entryBound_of_procAction_ok {Ctx : Type} {states : List Sym}
    {sm sm' : StateMap Ctx} {a : ActionMeta}
    (h : procAction states sm a = Except.ok sm') (ha : a.on_entry = true) :
    entryBound sm' a.state := by
  obtain ⟨r, r1, r2, hmem, hd, he, hx, rfl⟩ := procAction_ok_parts h
  refine ⟨r2, dget_dinsert_self _ _ _, ?_⟩
  have h1 := procEntry_ok_true ha he
  have h2 := (procExit_ok_fields hx).1
  simp [h2, h1]

theorem exitBound_of_procAction_ok {Ctx : Type} {states : List Sym}
    {sm sm' : StateMap Ctx} {a : ActionMeta}
    (h : procAction states sm a = Except.ok sm') (ha : a.on_exit = true) :
    exitBound sm' a.state := by
  obtain ⟨r, r1, r2, hmem, hd, he, hx, rfl⟩ := procAction_ok_parts h
  refine ⟨r2, dget_dinsert_self _ _ _, ?_⟩
  have h1 := procExit_ok_true ha hx
  simp [h1]


/- ==================================================================
Lemmas about the action pass as a whole. -/

theorem covered_procActions {Ctx : Type} {states : List Sym}
    {sm sm' : StateMap Ctx} {l : List ActionMeta}
    (h : procActions states sm l = Except.ok sm') (hc : covered states sm) :
    covered states sm' := by
  induction l generalizing sm with
  | nil => simp [procActions] at h; subst h; exact hc
  | cons a t ih =>
      simp only [procActions] at h
      cases hp : procAction states sm a with
      | error e => simp [hp] at h
      | ok sm1 =>
          simp only [hp] at h
          exact ih h (covered_procAction hp hc)

theorem procActions_error_fsm {Ctx : Type} {states : List Sym}
    {sm : StateMap Ctx} {l : List ActionMeta} {e : PyErr}
    (hc : covered states sm) (h : procActions states sm l = Except.error e) :
    ∃ msg, e = PyErr.fsmError msg := by
  induction l generalizing sm with
  | nil => simp [procActions] at h
  | cons a t ih =>
      simp only [procActions] at h
      cases hp : procAction states sm a with
      | error e0 =>
          simp only [hp] at h
          cases h
          exact procAction_error_fsm hc hp
      | ok sm1 =>
          simp only [hp] at h
          exact ih (covered_procAction hp hc) h

theorem procActions_append {Ctx : Type} (states : List Sym)
    (sm : StateMap Ctx) (l1 l2 : List ActionMeta) :
    procActions states sm (l1 ++ l2) =
      match procActions states sm l1 with
      | Except.error e => Except.error e
      | Except.ok sm1 => procActions states sm1 l2 := by
  induction l1 generalizing sm with
  | nil => simp [procActions]
  | cons a t ih =>
      simp only [List.cons_append, procActions]
      cases hp : procAction states sm a with
      | error e => simp
      | ok sm1 => simp [ih]

theorem procActions_err_of_entryBound {Ctx : Type} {states : List Sym}
    {sm : StateMap Ctx} {l : List ActionMeta} {a : ActionMeta}
    (hmem : a ∈ l) (ha : a.on_entry = true) (hc : covered states sm)
    (hb : entryBound sm a.state) :
    ∃ msg, procActions states sm l = Except.error (PyErr.fsmError msg) := by
  induction l generalizing sm with
  | nil => cases hmem
  | cons hd t ih =>
      rcases List.mem_cons.mp hmem with heq | hmem'
      · subst heq
        by_cases hs : a.state ∈ states
        · obtain ⟨r, hr, hre⟩ := hb
          have hpa : procAction states sm a =
              Except.error (PyErr.fsmError (dupEntryMsg a.state)) := by
            unfold procAction
            rw [if_pos hs]
            simp only [hr, procEntry_err hre ha]
          exact ⟨dupEntryMsg a.state, by simp [procActions, hpa]⟩
        · have hpa : procAction states sm a =
              Except.error (PyErr.fsmError (undeclActionStateMsg a.state a.name)) := by
            unfold procAction
            rw [if_neg hs]
          exact ⟨undeclActionStateMsg a.state a.name, by simp [procActions, hpa]⟩
      · cases hp : procAction states sm hd with
        | error e =>
            obtain ⟨msg, hm⟩ := procAction_error_fsm hc hp
            exact ⟨msg, by simp [procActions, hp, hm]⟩
        | ok sm1 =>
            obtain ⟨msg, hm⟩ :=
              ih hmem' (covered_procAction hp hc) (entryBound_procAction hp hb)
            exact ⟨msg, by simp [procActions, hp, hm]⟩

theorem procActions_err_of_exitBound {Ctx : Type} {states : List Sym}
    {sm : StateMap Ctx} {l : List ActionMeta} {a : ActionMeta}
    (hmem : a ∈ l) (ha : a.on_exit = true) (hc : covered states sm)
    (hb : exitBound sm a.state) :
    ∃ msg, procActions states sm l = Except.error (PyErr.fsmError msg) := by
  induction l generalizing sm with
  | nil => cases hmem
  | cons hd t ih =>
      rcases List.mem_cons.mp hmem with heq | hmem'
      · subst heq
        by_cases hs : a.state ∈ states
        · obtain ⟨r, hr, hre⟩ := hb
          cases hpe : procEntry r a with
          | error e =>
              have hpa : procAction states sm a = Except.error e := by
                unfold procAction
                rw [if_pos hs]
                simp only [hr, hpe]
              obtain ⟨msg, hm⟩ := procAction_error_fsm hc hpa
              exact ⟨msg, by simp [procActions, hpa, hm]⟩
          | ok r1 =>
              have hr1 : StateRec.on_exit r1 = StateRec.on_exit r :=
                (procEntry_ok_fields hpe).1
              have hpa : procAction states sm a =
                  Except.error (PyErr.fsmError (dupExitMsg a.state)) := by
                unfold procAction
                rw [if_pos hs]
                simp only [hr, hpe, procExit_err (hr1 ▸ hre) ha]
              exact ⟨dupExitMsg a.state, by simp [procActions, hpa]⟩
        · have hpa : procAction states sm a =
              Except.error (PyErr.fsmError (undeclActionStateMsg a.state a.name)) := by
            unfold procAction
            rw [if_neg hs]
          exact ⟨undeclActionStateMsg a.state a.name, by simp [procActions, hpa]⟩
      · cases hp : procAction states sm hd with
        | error e =>
            obtain ⟨msg, hm⟩ := procAction_error_fsm hc hp
            exact ⟨msg, by simp [procActions, hp, hm]⟩
        | ok sm1 =>
            obtain ⟨msg, hm⟩ :=
              ih hmem' (covered_procAction hp hc) (exitBound_procAction hp hb)
            exact ⟨msg, by simp [procActions, hp, hm]⟩

theorem procActions_err_dup_entry {Ctx : Type} {states : List Sym}
    {sm : StateMap Ctx} {l : List ActionMeta} {a b : ActionMeta}
    (hsub : List.Sublist [a, b] l) (hst : a.state = b.state)
    (ha : a.on_entry = true) (hb2 : b.on_entry = true)
    (hc : covered states sm) :
    ∃ msg, procActions states sm l = Except.error (PyErr.fsmError msg) := by
  induction l generalizing sm with
  | nil => cases hsub
  | cons hd t ih =>
      cases hsub with
      | cons _ hsub' =>
          cases hp : procAction states sm hd with
          | error e =>
              obtain ⟨msg, hm⟩ := procAction_error_fsm hc hp
              exact ⟨msg, by simp [procActions, hp, hm]⟩
          | ok sm1 =>
              obtain ⟨msg, hm⟩ := ih hsub' (covered_procAction hp hc)
              exact ⟨msg, by simp [procActions, hp, hm]⟩
      | cons₂ _ hsub' =>
          cases hp : procAction states sm a with
          | error e =>
              obtain ⟨msg, hm⟩ := procAction_error_fsm hc hp
              exact ⟨msg, by simp [procActions, hp, hm]⟩
          | ok sm1 =>
              have hbnd : entryBound sm1 b.state :=
                hst ▸ entryBound_of_procAction_ok hp ha
              have hmemB : b ∈ t := hsub'.subset (by simp)
              obtain ⟨msg, hm⟩ :=
                procActions_err_of_entryBound hmemB hb2
                  (covered_procAction hp hc) hbnd
              exact ⟨msg, by simp [procActions, hp, hm]⟩

theorem procActions_err_dup_exit {Ctx : Type} {states : List Sym}
    {sm : StateMap Ctx} {l : List ActionMeta} {a b : ActionMeta}
    (hsub : List.Sublist [a, b] l) (hst : a.state = b.state)
    (ha : a.on_exit = true) (hb2 : b.on_exit = true)
    (hc : covered states sm) :
    ∃ msg, procActions states sm l = Except.error (PyErr.fsmError msg) := by
  induction l generalizing sm with
  | nil => cases hsub
  | cons hd t ih =>
      cases hsub with
      | cons _ hsub' =>
          cases hp : procAction states sm hd with
          | error e =>
              obtain ⟨msg, hm⟩ := procAction_error_fsm hc hp
              exact ⟨msg, by simp [procActions, hp, hm]⟩
          | ok sm1 =>
              obtain ⟨msg, hm⟩ := ih hsub' (covered_procAction hp hc)
              exact ⟨msg, by simp [procActions, hp, hm]⟩
      | cons₂ _ hsub' =>
          cases hp : procAction states sm a with
          | error e =>
              obtain ⟨msg, hm⟩ := procAction_error_fsm hc hp
              exact ⟨msg, by simp [procActions, hp, hm]⟩
          | ok sm1 =>
              have hbnd : exitBound sm1 b.state :=
                hst ▸ exitBound_of_procAction_ok hp ha
              have hmemB : b ∈ t := hsub'.subset (by simp)
              obtain ⟨msg, hm⟩ :=
                procActions_err_of_exitBound hmemB hb2
                  (covered_procAction hp hc) hbnd
              exact ⟨msg, by simp [procActions, hp, hm]⟩


/- ==================================================================
Lemmas about the guard pass. -/

theorem procGuard_ok_parts {Ctx : Type} {states : List Sym}
    {sm sm' : StateMap Ctx} {g : GuardMeta Ctx}
    (h : procGuard states sm g = Except.ok sm') :
    ∃ r, g.state ∈ states ∧ dget sm g.state = some r ∧
      StateRec.guard r = none ∧
      sm' = dinsert sm g.state ⟨r.on_entry, r.on_exit, some g⟩ := by
  unfold procGuard at h
  split at h
  · split at h
    · cases h
    · rename_i r hd
      split at h
      · rename_i hg
        cases h
        exact ⟨r, by assumption, hd, hg, rfl⟩
      · cases h
  · cases h

theorem covered_procGuard {Ctx : Type} {states : List Sym}
    {sm sm' : StateMap Ctx} {g : GuardMeta Ctx}
    (h : procGuard states sm g = Except.ok sm') (hc : covered states sm) :
    covered states sm' := by
  obtain ⟨r, hmem, hd, hg, rfl⟩ := procGuard_ok_parts h
  intro s hs
  exact dget_dinsert_isSome _ _ _ _ (hc s hs)

theorem procGuard_error_fsm {Ctx : Type} {states : List Sym}
    {sm : StateMap Ctx} {g : GuardMeta Ctx} {e : PyErr}
    (hc : covered states sm) (h : procGuard states sm g = Except.error e) :
    ∃ msg, e = PyErr.fsmError msg := by
  by_cases hmem : g.state ∈ states
  · unfold procGuard at h
    rw [if_pos hmem] at h
    split at h
    · rename_i hd
      exact absurd (hc _ hmem) (by simp [hd])
    · rename_i r hd
      split at h
      · cases h
      · cases h
        exact ⟨_, rfl⟩
  · unfold procGuard at h
    rw [if_neg hmem] at h
    cases h
    exact ⟨_, rfl⟩

theorem guardBound_procGuard {Ctx : Type} {states : List Sym}
    {sm sm' : StateMap Ctx} {g : GuardMeta Ctx} {s : Sym}
    (h : procGuard states sm g = Except.ok sm') (hb : guardBound sm s) :
    guardBound sm' s := by
  obtain ⟨r, hmem, hd, hg, rfl⟩ := procGuard_ok_parts h
  obtain ⟨r0, hr0, hr0g⟩ := hb
  by_cases hk : g.state = s
  · subst hk
    rw [hd] at hr0
    injection hr0 with hr0
    subst hr0
    simp [hg] at hr0g
  · exact ⟨r0, by rwa [dget_dinsert_ne _ _ _ _ hk], hr0g⟩

theorem guardBound_of_procGuard_ok {Ctx : Type} {states : List Sym}
    {sm sm' : StateMap Ctx} {g : GuardMeta Ctx}
    (h : procGuard states sm g = Except.ok sm') :
    guardBound sm' g.state := by
  obtain ⟨r, hmem, hd, hg, rfl⟩ := procGuard_ok_parts h
  exact ⟨_, dget_dinsert_self _ _ _, by simp⟩

theorem covered_procGuards {Ctx : Type} {states : List Sym}
    {sm sm' : StateMap Ctx} {l : List (GuardMeta Ctx)}
    (h : procGuards states sm l = Except.ok sm') (hc : covered states sm) :
    covered states sm' := by
  induction l generalizing sm with
  | nil => simp [procGuards] at h; subst h; exact hc
  | cons g t ih =>
      simp only [procGuards] at h
      cases hp : procGuard states sm g with
      | error e => simp [hp] at h
      | ok sm1 =>
          simp only [hp] at h
          exact ih h (covered_procGuard hp hc)

theorem procGuards_error_fsm {Ctx : Type} {states : List Sym}
    {sm : StateMap Ctx} {l : List (GuardMeta Ctx)} {e : PyErr}
    (hc : covered states sm) (h : procGuards states sm l = Except.error e) :
    ∃ msg, e = PyErr.fsmError msg := by
  induction l generalizing sm with
  | nil => simp [procGuards] at h
  | cons g t ih =>
      simp only [procGuards] at h
      cases hp : procGuard states sm g with
      | error e0 =>
          simp only [hp] at h
          cases h
          exact procGuard_error_fsm hc hp
      | ok sm1 =>
          simp only [hp] at h
          exact ih (covered_procGuard hp hc) h

theorem procGuards_append {Ctx : Type} (states : List Sym)
    (sm : StateMap Ctx) (l1 l2 : List (GuardMeta Ctx)) :
    procGuards states sm (l1 ++ l2) =
      match procGuards states sm l1 with
      | Except.error e => Except.error e
      | Except.ok sm1 => procGuards states sm1 l2 := by
  induction l1 generalizing sm with
  | nil => simp [procGuards]
  | cons g t ih =>
      simp only [List.cons_append, procGuards]
      cases hp : procGuard states sm g with
      | error e => simp
      | ok sm1 => simp [ih]

theorem procGuards_err_of_guardBound {Ctx : Type} {states : List Sym}
    {sm : StateMap Ctx} {l : List (GuardMeta Ctx)} {g : GuardMeta Ctx}
    (hmem : g ∈ l) (hc : covered states sm) (hb : guardBound sm g.state) :
    ∃ msg, procGuards states sm l = Except.error (PyErr.fsmError msg) := by
  induction l generalizing sm with
  | nil => cases hmem
  | cons hd t ih =>
      rcases List.mem_cons.mp hmem with heq | hmem'
      · subst heq
        by_cases hs : g.state ∈ states
        · obtain ⟨r, hr, hrg⟩ := hb
          obtain ⟨x, hx⟩ := Option.isSome_iff_exists.mp hrg
          have hpg : procGuard states sm g =
              Except.error (PyErr.fsmError (dupGuardMsg g.state)) := by
            unfold procGuard
            rw [if_pos hs]
            simp only [hr, hx]
          exact ⟨dupGuardMsg g.state, by simp [procGuards, hpg]⟩
        · have hpg : procGuard states sm g =
              Except.error (PyErr.fsmError (undeclGuardStateMsg g.state g.name)) := by
            unfold procGuard
            rw [if_neg hs]
          exact ⟨undeclGuardStateMsg g.state g.name, by simp [procGuards, hpg]⟩
      · cases hp : procGuard states sm hd with
        | error e =>
            obtain ⟨msg, hm⟩ := procGuard_error_fsm hc hp
            exact ⟨msg, by simp [procGuards, hp, hm]⟩
        | ok sm1 =>
            obtain ⟨msg, hm⟩ :=
              ih hmem' (covered_procGuard hp hc) (guardBound_procGuard hp hb)
            exact ⟨msg, by simp [procGuards, hp, hm]⟩

theorem procGuards_err_dup {Ctx : Type} {states : List Sym}
    {sm : StateMap Ctx} {l : List (GuardMeta Ctx)} {g1 g2 : GuardMeta Ctx}
    (hsub : List.Sublist [g1, g2] l) (hst : g1.state = g2.state)
    (hc : covered states sm) :
    ∃ msg, procGuards states sm l = Except.error (PyErr.fsmError msg) := by
  induction l generalizing sm with
  | nil => cases hsub
  | cons hd t ih =>
      cases hsub with
      | cons _ hsub' =>
          cases hp : procGuard states sm hd with
          | error e =>
              obtain ⟨msg, hm⟩ := procGuard_error_fsm hc hp
              exact ⟨msg, by simp [procGuards, hp, hm]⟩
          | ok sm1 =>
              obtain ⟨msg, hm⟩ := ih hsub' (covered_procGuard hp hc)
              exact ⟨msg, by simp [procGuards, hp, hm]⟩
      | cons₂ _ hsub' =>
          cases hp : procGuard states sm g1 with
          | error e =>
              obtain ⟨msg, hm⟩ := procGuard_error_fsm hc hp
              exact ⟨msg, by simp [procGuards, hp, hm]⟩
          | ok sm1 =>
              have hbnd : guardBound sm1 g2.state :=
                hst ▸ guardBound_of_procGuard_ok hp
              have hmemB : g2 ∈ t := hsub'.subset (by simp)
              obtain ⟨msg, hm⟩ :=
                procGuards_err_of_guardBound hmemB
                  (covered_procGuard hp hc) hbnd
              exact ⟨msg, by simp [procGuards, hp, hm]⟩

/- ==================================================================
Lemmas about `createStateMap`. -/

theorem covered_createStateMap {Ctx : Type} {A : List ActionMeta}
    {G : List (GuardMeta Ctx)} {states : List Sym} {sm : StateMap Ctx}
    (h : createStateMap A G states = Except.ok sm) : covered states sm := by
  cases hp : procActions states (initMap states : StateMap Ctx) A with
  | error e =>
      have hcs : createStateMap A G states = Except.error e := by
        unfold createStateMap
        rw [hp]
      rw [hcs] at h
      cases h
  | ok sm1 =>
      have hcs : createStateMap A G states = procGuards states sm1 G := by
        unfold createStateMap
        rw [hp]
      rw [hcs] at h
      exact covered_procGuards h (covered_procActions hp (covered_initMap states))

theorem createStateMap_err_dup_entry {Ctx : Type} {A : List ActionMeta}
    {G : List (GuardMeta Ctx)} {states : List Sym} {a b : ActionMeta}
    (hsub : List.Sublist [a, b] A) (hst : a.state = b.state)
    (ha : a.on_entry = true) (hb : b.on_entry = true) :
    ∃ msg, createStateMap A G states = Except.error (PyErr.fsmError msg) := by
  obtain ⟨msg, hm⟩ :=
    procActions_err_dup_entry hsub hst ha hb (covered_initMap states)
  refine ⟨msg, ?_⟩
  unfold createStateMap
  rw [hm]

theorem createStateMap_err_dup_exit {Ctx : Type} {A : List ActionMeta}
    {G : List (GuardMeta Ctx)} {states : List Sym} {a b : ActionMeta}
    (hsub : List.Sublist [a, b] A) (hst : a.state = b.state)
    (ha : a.on_exit = true) (hb : b.on_exit = true) :
    ∃ msg, createStateMap A G states = Except.error (PyErr.fsmError msg) := by
  obtain ⟨msg, hm⟩ :=
    procActions_err_dup_exit hsub hst ha hb (covered_initMap states)
  refine ⟨msg, ?_⟩
  unfold createStateMap
  rw [hm]

theorem createStateMap_err_dup_guard {Ctx : Type} {A : List ActionMeta}
    {G : List (GuardMeta Ctx)} {states : List Sym} {g1 g2 : GuardMeta Ctx}
    (hsub : List.Sublist [g1, g2] G) (hst : g1.state = g2.state) :
    ∃ msg, createStateMap A G states = Except.error (PyErr.fsmError msg) := by
  cases hp : procActions states (initMap states : StateMap Ctx) A with
  | error e =>
      obtain ⟨msg, hm⟩ := procActions_error_fsm (covered_initMap states) hp
      subst hm
      refine ⟨msg, ?_⟩
      unfold createStateMap
      rw [hp]
  | ok sm1 =>
      obtain ⟨msg, hm⟩ :=
        procGuards_err_dup hsub hst
          (covered_procActions hp (covered_initMap states))
      refine ⟨msg, ?_⟩
      have hcs : createStateMap A G states = procGuards states sm1 G := by
        unfold createStateMap
        rw [hp]
      rw [hcs, hm]


/- ==================================================================
Lemmas about the lookup-table loop. -/

theorem canonTable_nil {Ctx : Type} (sm : StateMap Ctx) :
    canonTable sm [] := by
  intro b trs e t h1 h2
  simp [dget] at h1

theorem tableNE_nil {Ctx : Type} : tableNE ([] : LookupTable Ctx) := by
  intro b trs h1
  simp [dget] at h1

theorem addEdge_canon {Ctx : Type} {sm : StateMap Ctx} {lt : LookupTable Ctx}
    {b e : Sym} (hC : canonTable sm lt) :
    canonTable sm (addEdge sm lt b e) := by
  intro b' trs' e' t' h1 h2
  unfold addEdge at h1
  by_cases hb : b = b'
  · subst hb
    rw [dget_dinsert_self] at h1
    injection h1 with h1
    subst h1
    by_cases he : e = e'
    · subst he
      rw [dget_dinsert_self] at h2
      injection h2 with h2
      subst h2
      cases hlb : dget lt b with
      | none => simp [hlb, dget]
      | some d =>
          simp only [Option.getD_some]
          cases hte : dget d e with
          | none => simp [hte]
          | some t0 =>
              simp only [hte, Option.getD_some]
              exact hC b d e t0 hlb hte
    · rw [dget_dinsert_ne _ _ _ _ he] at h2
      cases hlb : dget lt b with
      | none =>
          rw [hlb] at h2
          simp [dget] at h2
      | some d =>
          rw [hlb] at h2
          exact hC b d e' t' hlb (by simpa using h2)
  · rw [dget_dinsert_ne _ _ _ _ hb] at h1
    exact hC b' trs' e' t' h1 h2

theorem addEdge_ne {Ctx : Type} {sm : StateMap Ctx} {lt : LookupTable Ctx}
    {b e : Sym} (hN : tableNE lt) : tableNE (addEdge sm lt b e) := by
  intro b' trs' h1
  unfold addEdge at h1
  by_cases hb : b = b'
  · subst hb
    rw [dget_dinsert_self] at h1
    injection h1 with h1
    subst h1
    exact dinsert_ne_nil _ _ _
  · rw [dget_dinsert_ne _ _ _ _ hb] at h1
    exact hN b' trs' h1

theorem addEdge_hasEdge_self {Ctx : Type} (sm : StateMap Ctx)
    (lt : LookupTable Ctx) (b e : Sym) :
    tableHasEdge (addEdge sm lt b e) b e := by
  unfold addEdge
  refine ⟨_, dget_dinsert_self _ _ _, ?_⟩
  rw [dget_dinsert_self]
  simp

theorem addEdge_hasEdge_mono {Ctx : Type} {sm : StateMap Ctx}
    {lt : LookupTable Ctx} {b e b' e' : Sym}
    (h : tableHasEdge lt b' e') : tableHasEdge (addEdge sm lt b e) b' e' := by
  obtain ⟨trs, h1, h2⟩ := h
  unfold addEdge
  by_cases hb : b = b'
  · subst hb
    refine ⟨_, dget_dinsert_self _ _ _, ?_⟩
    rw [h1]
    simp only [Option.getD_some]
    by_cases he : e = e'
    · subst he
      rw [dget_dinsert_self]
      simp
    · rw [dget_dinsert_ne _ _ _ _ he]
      exact h2
  · exact ⟨trs, by rw [dget_dinsert_ne _ _ _ _ hb]; exact h1, h2⟩

theorem addEdge_edges {Ctx : Type} {sm : StateMap Ctx} {lt : LookupTable Ctx}
    {b e b' e' : Sym} {trs' : List (Sym × TransRec Ctx)}
    (h1 : dget (addEdge sm lt b e) b' = some trs')
    (h2 : (dget trs' e').isSome) :
    tableHasEdge lt b' e' ∨ (b = b' ∧ e = e') := by
  unfold addEdge at h1
  by_cases hb : b = b'
  · subst hb
    rw [dget_dinsert_self] at h1
    injection h1 with h1
    subst h1
    by_cases he : e = e'
    · exact Or.inr ⟨rfl, he⟩
    · rw [dget_dinsert_ne _ _ _ _ he] at h2
      cases hlb : dget lt b with
      | none =>
          rw [hlb] at h2
          simp [dget] at h2
      | some d =>
          rw [hlb] at h2
          exact Or.inl ⟨d, hlb, by simpa using h2⟩
  · rw [dget_dinsert_ne _ _ _ _ hb] at h1
    exact Or.inl ⟨trs', h1, h2⟩

theorem buildAux_canon {Ctx : Type} {sm : StateMap Ctx} {rest : List (Sym × Sym)}
    {lt : LookupTable Ctx} (hC : canonTable sm lt) :
    canonTable sm (buildAux sm lt rest) := by
  induction rest generalizing lt with
  | nil => exact hC
  | cons p r ih =>
      obtain ⟨b0, e0⟩ := p
      exact ih (addEdge_canon hC)

theorem buildAux_ne {Ctx : Type} {sm : StateMap Ctx} {rest : List (Sym × Sym)}
    {lt : LookupTable Ctx} (hN : tableNE lt) : tableNE (buildAux sm lt rest) := by
  induction rest generalizing lt with
  | nil => exact hN
  | cons p r ih =>
      obtain ⟨b0, e0⟩ := p
      exact ih (addEdge_ne hN)

theorem buildAux_hasEdge {Ctx : Type} {sm : StateMap Ctx}
    {rest : List (Sym × Sym)} {lt : LookupTable Ctx} {b e : Sym}
    (h : (b, e) ∈ rest ∨ tableHasEdge lt b e) :
    tableHasEdge (buildAux sm lt rest) b e := by
  induction rest generalizing lt with
  | nil =>
      rcases h with h | h
      · cases h
      · exact h
  | cons p r ih =>
      obtain ⟨b0, e0⟩ := p
      rcases h with h | h
      · rcases List.mem_cons.mp h with heq | hm
        · injection heq with hb he
          subst hb
          subst he
          exact ih (Or.inr (addEdge_hasEdge_self sm lt b e))
        · exact ih (Or.inl hm)
      · exact ih (Or.inr (addEdge_hasEdge_mono h))

theorem buildAux_keys {Ctx : Type} {sm : StateMap Ctx}
    {rest : List (Sym × Sym)} {lt : LookupTable Ctx} {b : Sym}
    (h : (dget (buildAux sm lt rest) b).isSome) :
    (dget lt b).isSome ∨ ∃ e, (b, e) ∈ rest := by
  induction rest generalizing lt with
  | nil => exact Or.inl h
  | cons p r ih =>
      obtain ⟨b0, e0⟩ := p
      rcases ih h with h1 | ⟨e, h1⟩
      · unfold addEdge at h1
        rcases dget_dinsert_isSome_inv _ _ _ _ h1 with hb | h2
        · subst hb
          exact Or.inr ⟨e0, by simp⟩
        · exact Or.inl h2
      · exact Or.inr ⟨e, by simp [h1]⟩

theorem buildAux_edges {Ctx : Type} {sm : StateMap Ctx}
    {rest : List (Sym × Sym)} {lt : LookupTable Ctx} {b e : Sym}
    {trs : List (Sym × TransRec Ctx)}
    (h1 : dget (buildAux sm lt rest) b = some trs)
    (h2 : (dget trs e).isSome) :
    tableHasEdge lt b e ∨ (b, e) ∈ rest := by
  induction rest generalizing lt with
  | nil => exact Or.inl ⟨trs, h1, h2⟩
  | cons p r ih =>
      obtain ⟨b0, e0⟩ := p
      rcases ih h1 with hh | hm
      · obtain ⟨trs0, k1, k2⟩ := hh
        rcases addEdge_edges k1 k2 with hh' | ⟨hb, he⟩
        · exact Or.inl hh'
        · subst hb
          subst he
          exact Or.inr (by simp)
      · exact Or.inr (by simp [hm])

theorem table_resolve {Ctx : Type} {sm : StateMap Ctx} {ts : List (Sym × Sym)}
    {b e : Sym} (h : (b, e) ∈ ts) :
    ∃ trs, dget (buildTable sm ts) b = some trs ∧ trs.isEmpty = false ∧
      dget trs e = some (TransRec.mk (dget sm b) (dget sm e)) := by
  obtain ⟨trs, h1, h2⟩ := buildAux_hasEdge (Or.inl h)
  obtain ⟨t, ht⟩ := Option.isSome_iff_exists.mp h2
  have hcanon := buildAux_canon (canonTable_nil sm) b trs e t h1 ht
  subst hcanon
  have hne := buildAux_ne tableNE_nil b trs h1
  refine ⟨trs, h1, ?_, ht⟩
  cases trs with
  | nil => exact absurd rfl hne
  | cons x xs => rfl

theorem table_keys_none {Ctx : Type} {sm : StateMap Ctx} {ts : List (Sym × Sym)}
    {b : Sym} (h : ∀ e, (b, e) ∉ ts) : dget (buildTable sm ts) b = none := by
  cases hd : dget (buildTable sm ts) b with
  | none => rfl
  | some trs =>
      have hsome : (dget (buildAux sm ([] : LookupTable Ctx) ts) b).isSome := by
        show (dget (buildTable sm ts) b).isSome
        rw [hd]; rfl
      rcases @buildAux_keys Ctx sm ts ([] : LookupTable Ctx) b hsome with h1 | ⟨e, h1⟩
      · simp [dget] at h1
      · exact absurd h1 (h e)

theorem table_edge_none {Ctx : Type} {sm : StateMap Ctx} {ts : List (Sym × Sym)}
    {b e : Sym} {trs : List (Sym × TransRec Ctx)}
    (h1 : dget (buildTable sm ts) b = some trs) (h : (b, e) ∉ ts) :
    dget trs e = none := by
  cases hd : dget trs e with
  | none => rfl
  | some t =>
      rcases @buildAux_edges Ctx sm ts ([] : LookupTable Ctx) b e trs h1
          (by rw [hd]; rfl) with hh | hm
      · obtain ⟨trs0, k1, k2⟩ := hh
        simp [dget] at k1
      · exact absurd hm h

/- ==================================================================
Lemmas about construction as a whole. -/

theorem createLookupTable_eq {Ctx : Type} {md : MachineDecl Ctx}
    {ts : List (Sym × Sym)} {sm : StateMap Ctx}
    (hTr : md.transitions = some (some ts)) (hNe : ts.isEmpty = false)
    (hSm : createStateMap md.actions md.guards (deriveStates ts) = Except.ok sm) :
    createLookupTable md = Except.ok (buildTable sm ts) := by
  unfold createLookupTable getStates
  rw [hTr]
  simp only [hNe, Bool.false_eq_true, if_false, hSm]

theorem construct_eq_ok {Ctx : Type} {md : MachineDecl Ctx}
    {ts : List (Sym × Sym)} {sm : StateMap Ctx} {s0 : Sym}
    (hTr : md.transitions = some (some ts)) (hNe : ts.isEmpty = false)
    (hSm : createStateMap md.actions md.guards (deriveStates ts) = Except.ok sm)
    (hInit : md.initial_state = some s0) :
    construct md = Except.ok ⟨buildTable sm ts, s0⟩ := by
  unfold construct
  rw [createLookupTable_eq hTr hNe hSm, hInit]

theorem construct_err_of_stateMap {Ctx : Type} {md : MachineDecl Ctx}
    {ts : List (Sym × Sym)} {e : PyErr}
    (hTr : md.transitions = some (some ts)) (hNe : ts.isEmpty = false)
    (hE : createStateMap md.actions md.guards (deriveStates ts) = Except.error e) :
    construct md = Except.error e := by
  have h1 : createLookupTable md = Except.error e := by
    unfold createLookupTable getStates
    rw [hTr]
    simp only [hNe, Bool.false_eq_true, if_false, hE]
  unfold construct
  rw [h1]

theorem construct_ok_inv {Ctx : Type} {md : MachineDecl Ctx}
    {ts : List (Sym × Sym)} {mc : Machine Ctx}
    (hTr : md.transitions = some (some ts))
    (hC : construct md = Except.ok mc) :
    ∃ sm, ts.isEmpty = false ∧
      createStateMap md.actions md.guards (deriveStates ts) = Except.ok sm ∧
      mc.table = buildTable sm ts ∧ md.initial_state = some mc.curState := by
  cases hNe : ts.isEmpty with
  | true =>
      have hts : ts = [] := by
        cases ts with
        | nil => rfl
        | cons x xs => simp at hNe
      subst hts
      have h1 : construct md = Except.error (PyErr.fsmError specifyTransitionsMsg) := by
        unfold construct createLookupTable getStates
        rw [hTr]
        simp
      rw [h1] at hC
      cases hC
  | false =>
      cases hSm : createStateMap md.actions md.guards (deriveStates ts) with
      | error e =>
          rw [construct_err_of_stateMap hTr hNe hSm] at hC
          cases hC
      | ok sm =>
          cases hInit : md.initial_state with
          | none =>
              have h1 : construct md = Except.error (PyErr.attributeError "initial_state") := by
                unfold construct
                rw [createLookupTable_eq hTr hNe hSm, hInit]
              rw [h1] at hC
              cases hC
          | some s0 =>
              rw [construct_eq_ok hTr hNe hSm hInit] at hC
              injection hC with hC
              subst hC
              exact ⟨sm, rfl, rfl, rfl, rfl⟩


/- ==================================================================
Evaluation lemmas for the transition executor. -/

theorem transition_invalid_state {Ev Ctx : Type} (m : Machine Ctx) (tgt : Sym)
    (ev : Ev) (ctx : Ctx) (h1 : dget m.table m.curState = none) :
    transition m tgt ev ctx =
      (Except.error (PyErr.fsmError (invalidStateMsg m.curState)), m, []) := by
  simp [transition, h1]

theorem transition_invalid_transition {Ev Ctx : Type} (m : Machine Ctx)
    (tgt : Sym) (ev : Ev) (ctx : Ctx) {trs : List (Sym × TransRec Ctx)}
    (h1 : dget m.table m.curState = some trs) (h2 : trs.isEmpty = false)
    (h3 : dget trs tgt = none) :
    transition m tgt ev ctx =
      (Except.error (PyErr.fsmError (invalidTransitionMsg m.curState tgt)),
       m, []) := by
  simp [transition, h1, h2, h3]

theorem transition_success {Ev Ctx : Type} (m : Machine Ctx) (tgt : Sym)
    (ev : Ev) (ctx : Ctx) {trs : List (Sym × TransRec Ctx)}
    {br er : StateRec Ctx}
    (h1 : dget m.table m.curState = some trs) (h2 : trs.isEmpty = false)
    (h3 : dget trs tgt = some (TransRec.mk (some br) (some er)))
    (hG : ∀ g, StateRec.guard er = some g → g.fn ctx = PyVal.bool true) :
    transition m tgt ev ctx =
      (Except.ok none, Machine.mk m.table tgt,
       guardTrace Ev er ctx ++ exitTrace br ev ctx ++ entryTrace er ev ctx) := by
  cases hg : StateRec.guard er with
  | none =>
      simp [transition, h1, h2, h3, hg, runExitEntry, guardTrace]
  | some g =>
      have hfn := hG g hg
      simp [transition, h1, h2, h3, hg, hfn, pyIsBool, pyTruthy, runExitEntry,
        guardTrace]

theorem transition_guard_reject {Ev Ctx : Type} (m : Machine Ctx) (tgt : Sym)
    (ev : Ev) (ctx : Ctx) {trs : List (Sym × TransRec Ctx)}
    {bs : Option (StateRec Ctx)} {er : StateRec Ctx} {g : GuardMeta Ctx}
    (h1 : dget m.table m.curState = some trs) (h2 : trs.isEmpty = false)
    (h3 : dget trs tgt = some (TransRec.mk bs (some er)))
    (hg : StateRec.guard er = some g) (hfn : g.fn ctx = PyVal.bool false) :
    transition m tgt ev ctx =
      (Except.error (PyErr.fsmError (guardRejectedMsg m.curState tgt)), m,
       [TraceEv.guardCall g.name ctx]) := by
  simp [transition, h1, h2, h3, hg, hfn, pyIsBool, pyTruthy]

theorem transition_guard_contract {Ev Ctx : Type} (m : Machine Ctx) (tgt : Sym)
    (ev : Ev) (ctx : Ctx) {trs : List (Sym × TransRec Ctx)}
    {bs : Option (StateRec Ctx)} {er : StateRec Ctx} {g : GuardMeta Ctx}
    (h1 : dget m.table m.curState = some trs) (h2 : trs.isEmpty = false)
    (h3 : dget trs tgt = some (TransRec.mk bs (some er)))
    (hg : StateRec.guard er = some g) (hfn : pyIsBool (g.fn ctx) = false) :
    transition m tgt ev ctx =
      (Except.error (PyErr.fsmError guardContractMsg), m,
       [TraceEv.guardCall g.name ctx]) := by
  simp [transition, h1, h2, h3, hg, hfn]


/- ==================================================================
The claims. -/

/-- Claim C1 as stated is false: a successful `transition` call does not
return the value of `to`.  On the guard-free constructed machine
`simpleDecl` (first conjunct) the transition from `off` to `on` succeeds,
but the Python return value is `None` (`Except.ok none`), not the symbol
`"on"`: the body of `FiniteStateMachine.transition` ends at the state
assignment with no `return` statement. -/
theorem fsm_c1_cx :
    construct simpleDecl = Except.ok simpleM ∧
    (transition simpleM "on" "ev" ()).1 = Except.ok none ∧
    (Except.ok none : Except PyErr (Option Sym)) ≠ Except.ok (some "on") :=
  ⟨rfl, rfl, by simp⟩

/-- Claim C1 (amended): for every constructed machine in state `origin` with
a declared transition to `dest` whose guard passes (or with no guard on the
destination), a `transition(to=dest)` call succeeds, its Python return
value is `None` (not the new state), and the committed current state — what
`state()` returns afterwards — equals `dest`. -/
theorem fsm_c1 {Ev Ctx : Type} (md : MachineDecl Ctx) (ts : List (Sym × Sym))
    (sm : StateMap Ctx) (mc : Machine Ctx) (origin dest : Sym) (ev : Ev)
    (ctx : Ctx)
    (hTr : md.transitions = some (some ts))
    (hSm : createStateMap md.actions md.guards (deriveStates ts) = Except.ok sm)
    (hC : construct md = Except.ok mc)
    (hEdge : (origin, dest) ∈ ts)
    (hG : ∀ g, (dget sm dest).bind StateRec.guard = some g →
      g.fn ctx = PyVal.bool true) :
    (transition (Machine.mk mc.table origin) dest ev ctx).1 = Except.ok none ∧
    state (transition (Machine.mk mc.table origin) dest ev ctx).2.1 = dest := by
  obtain ⟨sm2, hNe, hSm2, hTable, hInit⟩ := construct_ok_inv hTr hC
  rw [hSm] at hSm2
  injection hSm2 with hsm2
  subst hsm2
  have cov := covered_createStateMap hSm
  have hmem := mem_deriveStates ts origin dest hEdge
  obtain ⟨br, hBr⟩ := Option.isSome_iff_exists.mp (cov origin hmem.1)
  obtain ⟨er, hEr⟩ := Option.isSome_iff_exists.mp (cov dest hmem.2)
  obtain ⟨trs, ht1, ht2, ht3⟩ := @table_resolve Ctx sm ts origin dest hEdge
  rw [hBr, hEr] at ht3
  have h1 : dget mc.table origin = some trs := by rw [hTable]; exact ht1
  have heval := transition_success (Machine.mk mc.table origin) dest ev ctx
    h1 ht2 ht3 (fun g hgg => hG g (by rw [hEr]; simpa using hgg))
  rw [heval]
  exact ⟨rfl, rfl⟩

theorem fsm_c1_witness :
    (transition (Machine.mk lbM.table "off") "on" "ev" (PyVal.bool true)).1 =
      Except.ok none ∧
    state (transition (Machine.mk lbM.table "off") "on" "ev"
      (PyVal.bool true)).2.1 = "on" :=
  fsm_c1 lbDecl lbTs lbSm lbM "off" "on" "ev" (PyVal.bool true) rfl rfl rfl
    (by decide) (fun g hg => by cases hg; rfl)

/-- Claim C2: on a constructed machine in state `origin` with a declared
transition `(origin, dest)` whose destination guard (if any) returns `True`,
the call performs exactly this trace, in this order: the guard consultation
(when a guard is bound), then the origin's exit action exactly once (when
bound), then the destination's entry action exactly once (when bound); and
it commits `dest` as the new current state (guard → exit → entry →
commit). -/
theorem fsm_c2 {Ev Ctx : Type} (md : MachineDecl Ctx) (ts : List (Sym × Sym))
    (sm : StateMap Ctx) (mc : Machine Ctx) (origin dest : Sym)
    (br er : StateRec Ctx) (ev : Ev) (ctx : Ctx)
    (hTr : md.transitions = some (some ts))
    (hSm : createStateMap md.actions md.guards (deriveStates ts) = Except.ok sm)
    (hC : construct md = Except.ok mc)
    (hEdge : (origin, dest) ∈ ts)
    (hBr : dget sm origin = some br) (hEr : dget sm dest = some er)
    (hG : ∀ g, StateRec.guard er = some g → g.fn ctx = PyVal.bool true) :
    transition (Machine.mk mc.table origin) dest ev ctx =
      (Except.ok none, Machine.mk mc.table dest,
       guardTrace Ev er ctx ++ exitTrace br ev ctx ++ entryTrace er ev ctx) := by
  obtain ⟨sm2, hNe, hSm2, hTable, hInit⟩ := construct_ok_inv hTr hC
  rw [hSm] at hSm2
  injection hSm2 with hsm2
  subst hsm2
  obtain ⟨trs, ht1, ht2, ht3⟩ := @table_resolve Ctx sm ts origin dest hEdge
  rw [hBr, hEr] at ht3
  have h1 : dget mc.table origin = some trs := by rw [hTable]; exact ht1
  exact transition_success (Machine.mk mc.table origin) dest ev ctx h1 ht2 ht3 hG

theorem fsm_c2_witness :
    transition (Machine.mk lbM.table "off") "on" "ev" (PyVal.bool true) =
      (Except.ok none, Machine.mk lbM.table "on",
       guardTrace String (StateRec.mk (some "turn_on") none (some lbGuard))
           (PyVal.bool true) ++
         exitTrace (StateRec.mk (some "turn_off") none none) "ev"
           (PyVal.bool true) ++
         entryTrace (StateRec.mk (some "turn_on") none (some lbGuard)) "ev"
           (PyVal.bool true)) :=
  fsm_c2 lbDecl lbTs lbSm lbM "off" "on"
    (StateRec.mk (some "turn_off") none none)
    (StateRec.mk (some "turn_on") none (some lbGuard)) "ev" (PyVal.bool true)
    rfl rfl rfl (by decide) rfl rfl (fun g hg => by cases hg; rfl)

/-- Claim C3: on a constructed machine in state `origin` with a declared
transition `(origin, dest)` whose destination guard returns `False`, the
call fails with the guard-rejected `FiniteStateMachineError`
(`GuardRejectedError`), the machine keeps its pre-transition state, and the
only side effect is the guard consultation itself — neither the origin's
exit action nor the destination's entry action appears in the trace, and no
commit happens. -/
theorem fsm_c3 {Ev Ctx : Type} (md : MachineDecl Ctx) (ts : List (Sym × Sym))
    (sm : StateMap Ctx) (mc : Machine Ctx) (origin dest : Sym)
    (er : StateRec Ctx) (g : GuardMeta Ctx) (ev : Ev) (ctx : Ctx)
    (hTr : md.transitions = some (some ts))
    (hSm : createStateMap md.actions md.guards (deriveStates ts) = Except.ok sm)
    (hC : construct md = Except.ok mc)
    (hEdge : (origin, dest) ∈ ts)
    (hEr : dget sm dest = some er)
    (hg : StateRec.guard er = some g)
    (hfn : g.fn ctx = PyVal.bool false) :
    transition (Machine.mk mc.table origin) dest ev ctx =
      (Except.error (PyErr.fsmError (guardRejectedMsg origin dest)),
       Machine.mk mc.table origin, [TraceEv.guardCall g.name ctx]) := by
  obtain ⟨sm2, hNe, hSm2, hTable, hInit⟩ := construct_ok_inv hTr hC
  rw [hSm] at hSm2
  injection hSm2 with hsm2
  subst hsm2
  obtain ⟨trs, ht1, ht2, ht3⟩ := @table_resolve Ctx sm ts origin dest hEdge
  rw [hEr] at ht3
  have h1 : dget mc.table origin = some trs := by rw [hTable]; exact ht1
  exact transition_guard_reject (Machine.mk mc.table origin) dest ev ctx
    h1 ht2 ht3 hg hfn

theorem fsm_c3_witness :
    transition (Machine.mk lbM.table "off") "on" "ev" (PyVal.bool false) =
      (Except.error (PyErr.fsmError (guardRejectedMsg "off" "on")),
       Machine.mk lbM.table "off",
       [TraceEv.guardCall "check_electricity" (PyVal.bool false)]) :=
  fsm_c3 lbDecl lbTs lbSm lbM "off" "on"
    (StateRec.mk (some "turn_on") none (some lbGuard)) lbGuard "ev"
    (PyVal.bool false) rfl rfl rfl (by decide) rfl rfl rfl

/-- Claim C4 as stated is false for origins with no outgoing declared
transition: `("broken", "on")` is not in the light-bulb transition list, yet
calling `transition(to="on")` from the terminal state `broken` raises the
invalid-state error of executor step 1 (the current state has no entry in
the lookup table), not the invalid-transition error; the two messages
differ. -/
theorem fsm_c4_cx :
    (("broken", "on") ∉ lbTs) ∧
    transition (Machine.mk lbM.table "broken") "on" "ev" (PyVal.bool true) =
      (Except.error (PyErr.fsmError (invalidStateMsg "broken")),
       Machine.mk lbM.table "broken", []) ∧
    invalidStateMsg "broken" ≠ invalidTransitionMsg "broken" "on" :=
  ⟨by decide, rfl, by decide⟩

/-- Claim C4 (amended): for every pair `(origin, dest)` that is not a
declared transition, where `origin` does have at least one outgoing declared
transition, calling `transition(to=dest)` from `origin` fails with the
invalid-transition `FiniteStateMachineError` (`InvalidTransitionError`), the
machine keeps its state, and no side effect occurs.  (When `origin` has no
outgoing declared transitions at all, the call instead fails with the
invalid-state error of executor step 1, as the counterexample shows.) -/
theorem fsm_c4 {Ev Ctx : Type} (md : MachineDecl Ctx) (ts : List (Sym × Sym))
    (sm : StateMap Ctx) (mc : Machine Ctx) (origin dest e0 : Sym) (ev : Ev)
    (ctx : Ctx)
    (hTr : md.transitions = some (some ts))
    (hSm : createStateMap md.actions md.guards (deriveStates ts) = Except.ok sm)
    (hC : construct md = Except.ok mc)
    (hOut : (origin, e0) ∈ ts)
    (hNot : (origin, dest) ∉ ts) :
    transition (Machine.mk mc.table origin) dest ev ctx =
      (Except.error (PyErr.fsmError (invalidTransitionMsg origin dest)),
       Machine.mk mc.table origin, []) := by
  obtain ⟨sm2, hNe, hSm2, hTable, hInit⟩ := construct_ok_inv hTr hC
  rw [hSm] at hSm2
  injection hSm2 with hsm2
  subst hsm2
  obtain ⟨trs, ht1, ht2, _⟩ := @table_resolve Ctx sm ts origin e0 hOut
  have h3 := table_edge_none ht1 hNot
  have h1 : dget mc.table origin = some trs := by rw [hTable]; exact ht1
  exact transition_invalid_transition (Machine.mk mc.table origin) dest ev ctx
    h1 ht2 h3

theorem fsm_c4_witness :
    transition (Machine.mk lbM.table "off") "off" "ev" (PyVal.bool true) =
      (Except.error (PyErr.fsmError (invalidTransitionMsg "off" "off")),
       Machine.mk lbM.table "off", []) :=
  fsm_c4 lbDecl lbTs lbSm lbM "off" "off" "on" "ev" (PyVal.bool true)
    rfl rfl rfl (by decide) (by decide)


/-- Claim C5: a machine declaration (with a present, nonempty transition
list) that binds two on-entry actions, or two on-exit actions, or two
guards, to one and the same state makes `construct` fail with a
`FiniteStateMachineError` (the class the specification calls
`ConfigurationError`); no machine instance is produced, so no transition can
ever be attempted on it. -/
theorem fsm_c5 {Ctx : Type} (md : MachineDecl Ctx) (ts : List (Sym × Sym))
    (hTr : md.transitions = some (some ts)) (hNe : ts ≠ [])
    (hDup :
      (∃ a b, List.Sublist [a, b] md.actions ∧ a.state = b.state ∧
        a.on_entry = true ∧ b.on_entry = true) ∨
      (∃ a b, List.Sublist [a, b] md.actions ∧ a.state = b.state ∧
        a.on_exit = true ∧ b.on_exit = true) ∨
      (∃ g1 g2, List.Sublist [g1, g2] md.guards ∧ g1.state = g2.state)) :
    isConfigError (construct md) = true := by
  have hNe' : ts.isEmpty = false := by
    cases ts with
    | nil => exact absurd rfl hNe
    | cons x xs => rfl
  rcases hDup with ⟨a, b, hsub, hst, ha, hb⟩ | ⟨a, b, hsub, hst, ha, hb⟩ |
    ⟨g1, g2, hsub, hst⟩
  · obtain ⟨msg, hm⟩ := @createStateMap_err_dup_entry Ctx md.actions md.guards
      (deriveStates ts) a b hsub hst ha hb
    rw [construct_err_of_stateMap hTr hNe' hm]
    rfl
  · obtain ⟨msg, hm⟩ := @createStateMap_err_dup_exit Ctx md.actions md.guards
      (deriveStates ts) a b hsub hst ha hb
    rw [construct_err_of_stateMap hTr hNe' hm]
    rfl
  · obtain ⟨msg, hm⟩ := @createStateMap_err_dup_guard Ctx md.actions md.guards
      (deriveStates ts) g1 g2 hsub hst
    rw [construct_err_of_stateMap hTr hNe' hm]
    rfl

theorem fsm_c5_witness : isConfigError (construct dupDecl) = true :=
  fsm_c5 dupDecl simpleTs rfl (by decide)
    (Or.inl ⟨ActionMeta.mk "a1" "on" true false,
      ActionMeta.mk "a2" "on" true false,
      List.Sublist.refl _, rfl, rfl, rfl⟩)

/-- Claim C8: when the reflection pass reaches an action or a guard declared
for a state `s` that is not an endpoint of any declared transition (all
earlier declarations having been accepted), `construct` fails with the
`FiniteStateMachineError` whose message names the offending state `s` (and
the offending callable `nm`) — `undeclActionStateMsg` / `undeclGuardStateMsg`
interpolate both names exactly as the source format strings do. -/
theorem fsm_c8 {Ctx : Type} (md : MachineDecl Ctx) (ts : List (Sym × Sym))
    (s nm : Sym)
    (hTr : md.transitions = some (some ts)) (hNe : ts ≠ [])
    (hOff :
      (∃ l1 l2 oe ox sm1, md.actions = l1 ++ ActionMeta.mk nm s oe ox :: l2 ∧
        s ∉ deriveStates ts ∧
        procActions (deriveStates ts)
          (initMap (deriveStates ts) : StateMap Ctx) l1 = Except.ok sm1) ∨
      (∃ l1 l2 fn sm1 sm2, md.guards = l1 ++ GuardMeta.mk nm s fn :: l2 ∧
        s ∉ deriveStates ts ∧
        procActions (deriveStates ts)
          (initMap (deriveStates ts) : StateMap Ctx) md.actions =
          Except.ok sm1 ∧
        procGuards (deriveStates ts) sm1 l1 = Except.ok sm2)) :
    construct md = Except.error (PyErr.fsmError (undeclActionStateMsg s nm)) ∨
    construct md = Except.error (PyErr.fsmError (undeclGuardStateMsg s nm)) := by
  have hNe' : ts.isEmpty = false := by
    cases ts with
    | nil => exact absurd rfl hNe
    | cons x xs => rfl
  rcases hOff with ⟨l1, l2, oe, ox, sm1, hA, hS, hPre⟩ |
    ⟨l1, l2, fn, sm1, sm2, hG2, hS, hAll, hPre⟩
  · left
    have hpa : procAction (deriveStates ts) sm1 (ActionMeta.mk nm s oe ox) =
        Except.error (PyErr.fsmError (undeclActionStateMsg s nm)) := by
      unfold procAction
      rw [if_neg hS]
    have hErr : procActions (deriveStates ts)
        (initMap (deriveStates ts) : StateMap Ctx) md.actions =
        Except.error (PyErr.fsmError (undeclActionStateMsg s nm)) := by
      rw [hA, procActions_append, hPre]
      show procActions (deriveStates ts) sm1 (ActionMeta.mk nm s oe ox :: l2) =
        Except.error (PyErr.fsmError (undeclActionStateMsg s nm))
      simp [procActions, hpa]
    have hCS : createStateMap md.actions md.guards (deriveStates ts) =
        Except.error (PyErr.fsmError (undeclActionStateMsg s nm)) := by
      unfold createStateMap
      rw [hErr]
    exact construct_err_of_stateMap hTr hNe' hCS
  · right
    have hpg : procGuard (deriveStates ts) sm2 (GuardMeta.mk nm s fn) =
        Except.error (PyErr.fsmError (undeclGuardStateMsg s nm)) := by
      unfold procGuard
      rw [if_neg hS]
    have hErrG : procGuards (deriveStates ts) sm1 md.guards =
        Except.error (PyErr.fsmError (undeclGuardStateMsg s nm)) := by
      rw [hG2, procGuards_append, hPre]
      show procGuards (deriveStates ts) sm2 (GuardMeta.mk nm s fn :: l2) =
        Except.error (PyErr.fsmError (undeclGuardStateMsg s nm))
      simp [procGuards, hpg]
    have hCS : createStateMap md.actions md.guards (deriveStates ts) =
        Except.error (PyErr.fsmError (undeclGuardStateMsg s nm)) := by
      unfold createStateMap
      rw [hAll]
      show procGuards (deriveStates ts) sm1 md.guards =
        Except.error (PyErr.fsmError (undeclGuardStateMsg s nm))
      exact hErrG
    exact construct_err_of_stateMap hTr hNe' hCS

theorem fsm_c8_witness :
    construct badActDecl =
      Except.error (PyErr.fsmError (undeclActionStateMsg "bogus" "foobar")) ∨
    construct badActDecl =
      Except.error (PyErr.fsmError (undeclGuardStateMsg "bogus" "foobar")) :=
  fsm_c8 badActDecl simpleTs "bogus" "foobar" rfl (by decide)
    (Or.inl ⟨[], [], true, true, initMap (deriveStates simpleTs),
      rfl, by decide, rfl⟩)

/-- Claim C9: on a constructed machine in state `origin` with a declared
transition `(origin, dest)` whose destination guard returns a value that is
not strictly boolean, the call fails with the guard-contract
`FiniteStateMachineError` (`GuardContractError`); the machine keeps its
pre-transition state and performs no exit action, entry action nor commit
(only the guard consultation appears in the trace), so — the table being
immutable and the returned machine unchanged — further `transition()` calls
behave exactly as before the failed call. -/
theorem fsm_c9 {Ev Ctx : Type} (md : MachineDecl Ctx) (ts : List (Sym × Sym))
    (sm : StateMap Ctx) (mc : Machine Ctx) (origin dest : Sym)
    (er : StateRec Ctx) (g : GuardMeta Ctx) (ev : Ev) (ctx : Ctx)
    (hTr : md.transitions = some (some ts))
    (hSm : createStateMap md.actions md.guards (deriveStates ts) = Except.ok sm)
    (hC : construct md = Except.ok mc)
    (hEdge : (origin, dest) ∈ ts)
    (hEr : dget sm dest = some er)
    (hg : StateRec.guard er = some g)
    (hfn : pyIsBool (g.fn ctx) = false) :
    transition (Machine.mk mc.table origin) dest ev ctx =
      (Except.error (PyErr.fsmError guardContractMsg),
       Machine.mk mc.table origin, [TraceEv.guardCall g.name ctx]) := by
  obtain ⟨sm2, hNe, hSm2, hTable, hInit⟩ := construct_ok_inv hTr hC
  rw [hSm] at hSm2
  injection hSm2 with hsm2
  subst hsm2
  obtain ⟨trs, ht1, ht2, ht3⟩ := @table_resolve Ctx sm ts origin dest hEdge
  rw [hEr] at ht3
  have h1 : dget mc.table origin = some trs := by rw [hTable]; exact ht1
  exact transition_guard_contract (Machine.mk mc.table origin) dest ev ctx
    h1 ht2 ht3 hg hfn

theorem fsm_c9_witness :
    transition (Machine.mk lbM.table "off") "on" "ev" (PyVal.str "yes") =
      (Except.error (PyErr.fsmError guardContractMsg),
       Machine.mk lbM.table "off",
       [TraceEv.guardCall "check_electricity" (PyVal.str "yes")]) :=
  fsm_c9 lbDecl lbTs lbSm lbM "off" "on"
    (StateRec.mk (some "turn_on") none (some lbGuard)) lbGuard "ev"
    (PyVal.str "yes") rfl rfl rfl (by decide) rfl rfl rfl

/-- Claim C10: `construct` never validates `initial_state` against the
derived state set.  Given any successfully constructed machine, replacing
`initial_state` by an arbitrary symbol `v` — including one appearing in no
declared transition — still constructs successfully, with the same table and
with `state()` returning `v`; and when `v` is outside the derived state set,
every `transition()` call from it fails with the invalid-state
`FiniteStateMachineError` and leaves the machine unchanged. -/
theorem fsm_c10 {Ev Ctx : Type} (md : MachineDecl Ctx) (ts : List (Sym × Sym))
    (mc : Machine Ctx) (v : Sym)
    (hTr : md.transitions = some (some ts))
    (hC : construct md = Except.ok mc) :
    construct (withInit md v) = Except.ok (Machine.mk mc.table v) ∧
    state (Machine.mk mc.table v) = v ∧
    (v ∉ deriveStates ts → ∀ (tgt : Sym) (ev : Ev) (ctx : Ctx),
      transition (Machine.mk mc.table v) tgt ev ctx =
        (Except.error (PyErr.fsmError (invalidStateMsg v)),
         Machine.mk mc.table v, [])) := by
  obtain ⟨sm, hNe, hSm, hTable, hInit⟩ := construct_ok_inv hTr hC
  refine ⟨?_, rfl, ?_⟩
  · have hTr' : (withInit md v).transitions = some (some ts) := hTr
    have hSm' : createStateMap (withInit md v).actions (withInit md v).guards
        (deriveStates ts) = Except.ok sm := hSm
    have hInit' : (withInit md v).initial_state = some v := rfl
    rw [construct_eq_ok hTr' hNe hSm' hInit', hTable]
  · intro hv tgt ev ctx
    have hnone : dget (buildTable sm ts) v = none := by
      apply table_keys_none
      intro e he
      exact hv (mem_deriveStates ts v e he).1
    have h1 : dget mc.table v = none := by rw [hTable]; exact hnone
    exact transition_invalid_state (Machine.mk mc.table v) tgt ev ctx h1

theorem fsm_c10_witness :
    construct (withInit simpleDecl "zzz") =
      Except.ok (Machine.mk simpleM.table "zzz") ∧
    transition (Machine.mk simpleM.table "zzz") "on" "ev" () =
      (Except.error (PyErr.fsmError (invalidStateMsg "zzz")),
       Machine.mk simpleM.table "zzz", []) := by
  have h := @fsm_c10 String Unit simpleDecl simpleTs simpleM "zzz" rfl rfl
  exact ⟨h.1, h.2.2 (by decide) "on" "ev" ()⟩

/-- Claim C6 as stated is false for the guard decorator: marking a callable
as a guard with a missing `state` keyword raises a plain `TypeError`
(`Guard.__call__` line 79), not the `FiniteStateMachineError` class the
specification calls `ConfigurationError`. -/
theorem fsm_c6_cx :
    guardDecorate ⟨none⟩ (0 : Nat) =
      Except.error (PyErr.typeError guardStateMsg) ∧
    isConfigError (guardDecorate ⟨none⟩ (0 : Nat)) = false :=
  ⟨rfl, rfl⟩

/-- Claim C6 (amended): a `state` keyword that is missing, `None`, an empty
string, or not a string at all makes the action decorator fail with
`FiniteStateMachineError` (`ConfigurationError`) and the guard decorator
fail with `TypeError`; in both cases the error is raised while attaching
metadata, and the decorated callable is never invoked (the decorators only
carry `f` through, they never apply it). -/
theorem fsm_c6 {α β : Type} (ka : ActionKwargs) (kg : GuardKwargs)
    (f : α) (g : β)
    (ha : invalidStateAttr (kwState ka.state) = true)
    (hg : invalidStateAttr (kwState kg.state) = true) :
    actionDecorate ka f = Except.error (PyErr.fsmError actionStateMsg) ∧
    guardDecorate kg g = Except.error (PyErr.typeError guardStateMsg) := by
  constructor
  · simp [actionDecorate, ha]
  · simp [guardDecorate, hg]

theorem fsm_c6_witness :
    actionDecorate ⟨some (PyVal.bool true), none, none⟩ (0 : Nat) =
      Except.error (PyErr.fsmError actionStateMsg) ∧
    guardDecorate ⟨none⟩ true =
      Except.error (PyErr.typeError guardStateMsg) :=
  fsm_c6 ⟨some (PyVal.bool true), none, none⟩ ⟨none⟩ (0 : Nat) true
    (by decide) (by decide)

/-- Claim C7 as stated is false for an entirely undeclared `transitions`
attribute: reading it raises Python's `AttributeError` before the engine's
own check runs, so construction fails, but not with the
`FiniteStateMachineError` class the specification calls
`ConfigurationError`. -/
theorem fsm_c7_cx :
    construct mdAbsentTrans =
      Except.error (PyErr.attributeError "transitions") ∧
    isConfigError (construct mdAbsentTrans) = false :=
  ⟨rfl, rfl⟩

/-- Claim C7 (amended): machine construction fails with
`FiniteStateMachineError` (`ConfigurationError`) when `transitions` is
declared as `None` or as the empty list; when the attribute is not declared
at all it fails with `AttributeError` instead; and in every case no machine
with an empty derived state set is ever constructed — a constructed machine
always comes from a nonempty transition list, whose derived state set is
nonempty. -/
theorem fsm_c7 {Ctx : Type} (md : MachineDecl Ctx) :
    (md.transitions = some none ∨ md.transitions = some (some []) →
      construct md = Except.error (PyErr.fsmError specifyTransitionsMsg)) ∧
    (md.transitions = none →
      construct md = Except.error (PyErr.attributeError "transitions")) ∧
    (∀ mc, construct md = Except.ok mc →
      ∃ ts, md.transitions = some (some ts) ∧ ts ≠ [] ∧
        deriveStates ts ≠ []) := by
  refine ⟨?_, ?_, ?_⟩
  · intro h
    rcases h with h | h
    · unfold construct createLookupTable getStates
      rw [h]
    · unfold construct createLookupTable getStates
      rw [h]
      rfl
  · intro h
    unfold construct createLookupTable getStates
    rw [h]
  · intro mc h
    cases hTr : md.transitions with
    | none =>
        have h1 : construct md = Except.error (PyErr.attributeError "transitions") := by
          unfold construct createLookupTable getStates
          rw [hTr]
        rw [h1] at h
        cases h
    | some t =>
        cases t with
        | none =>
            have h1 : construct md =
                Except.error (PyErr.fsmError specifyTransitionsMsg) := by
              unfold construct createLookupTable getStates
              rw [hTr]
            rw [h1] at h
            cases h
        | some ts =>
            obtain ⟨sm, hNe, hSm, hTable, hInit⟩ := construct_ok_inv hTr h
            have hne : ts ≠ [] := by
              cases ts with
              | nil => simp at hNe
              | cons x xs => exact List.cons_ne_nil x xs
            exact ⟨ts, rfl, hne, deriveStates_ne_nil ts hne⟩

theorem fsm_c7_witness :
    construct mdNoneTrans =
      Except.error (PyErr.fsmError specifyTransitionsMsg) :=
  (fsm_c7 mdNoneTrans).1 (Or.inl rfl)

end Fsm
